import Mathlib

/-!
# Ray tracer core (raytracing.cpp): shallow embedding and verified properties

The embedding follows `raytracer/src/raytracing.cpp` function by function.

Conventions of the embedding

* `float` values are modelled by exact rationals (`ℚ`): rounding, infinities
  and NaN are outside the model.
* The C library `sqrtf` and the GLM matrix inverse are not part of the
  repository; they are fields of `Env` and every theorem states what it assumes
  about them.
* A default-constructed `glm::vec3` local that is read before being assigned
  (`hitColor` in `color`) has the value `Env.uninit_vec3`.
* The primitives (`sphere.h`, `box.h`, `triangle.h`) are not part of the
  sources; a primitive is represented by its `hit` function.
* Undefined behaviour (integer modulo by zero, out-of-range `std::vector`
  access) is the result `none`.
-/

namespace rt

/-! ## GLM vectors -/

/-- Three-component vector `glm::vec3`. -/
@[ext] structure Vec3 where
  x : ℚ
  y : ℚ
  z : ℚ
deriving DecidableEq

/-- Four-component vector `glm::vec4`; the fourth component is `w` (alias `a`). -/
@[ext] structure Vec4 where
  x : ℚ
  y : ℚ
  z : ℚ
  w : ℚ
deriving DecidableEq

namespace Vec3

/-- The vector `glm::vec3(s)` with all components equal to `s`. -/
def splat (s : ℚ) : Vec3 := ⟨s, s, s⟩

instance : Zero Vec3 := ⟨splat 0⟩
instance : Add Vec3 := ⟨fun a b => ⟨a.x + b.x, a.y + b.y, a.z + b.z⟩⟩
instance : Sub Vec3 := ⟨fun a b => ⟨a.x - b.x, a.y - b.y, a.z - b.z⟩⟩
instance : Neg Vec3 := ⟨fun a => ⟨-a.x, -a.y, -a.z⟩⟩
/-- Scalar times vector. -/
instance : HMul ℚ Vec3 Vec3 := ⟨fun s a => ⟨s * a.x, s * a.y, s * a.z⟩⟩
/-- Vector times scalar. -/
instance : HMul Vec3 ℚ Vec3 := ⟨fun a s => ⟨a.x * s, a.y * s, a.z * s⟩⟩
/-- Vector plus scalar (added to every component). -/
instance : HAdd Vec3 ℚ Vec3 := ⟨fun a s => ⟨a.x + s, a.y + s, a.z + s⟩⟩


end Vec3

namespace Vec4

/-- The vector `glm::vec4(v, s)`. -/
def ofVec3 (v : Vec3) (s : ℚ) : Vec4 := ⟨v.x, v.y, v.z, s⟩

/-- The conversion `glm::vec3(v)` dropping the fourth component. -/
def xyz (v : Vec4) : Vec3 := ⟨v.x, v.y, v.z⟩

instance : Zero Vec4 := ⟨⟨0, 0, 0, 0⟩⟩
instance : Add Vec4 := ⟨fun a b => ⟨a.x + b.x, a.y + b.y, a.z + b.z, a.w + b.w⟩⟩
/-- Vector times scalar. -/
instance : HMul Vec4 ℚ Vec4 := ⟨fun a s => ⟨a.x * s, a.y * s, a.z * s, a.w * s⟩⟩
/-- Vector divided by scalar. -/
instance : HDiv Vec4 ℚ Vec4 := ⟨fun a s => ⟨a.x / s, a.y / s, a.z / s, a.w / s⟩⟩


/-- Component-wise `glm::clamp(v, lo, hi)`, that is `min(max(x, lo), hi)`. -/
def clamp (v : Vec4) (lo hi : ℚ) : Vec4 :=
  ⟨min (max v.x lo) hi, min (max v.y lo) hi, min (max v.z lo) hi, min (max v.w lo) hi⟩

end Vec4

/-- Four by four matrix `glm::mat4`, stored by columns. -/
structure Mat4 where
  c0 : Vec4
  c1 : Vec4
  c2 : Vec4
  c3 : Vec4
deriving DecidableEq

/-- Matrix times column vector. -/
def Mat4.mulVec (m : Mat4) (v : Vec4) : Vec4 :=
  m.c0 * v.x + m.c1 * v.y + m.c2 * v.z + m.c3 * v.w

/-- Dot product `glm::dot`. -/
def dot (a b : Vec3) : ℚ := a.x * b.x + a.y * b.y + a.z * b.z

/-- Modelled from the spec: the struct `HitRecord` is declared in `hitable.h`, which is
not among the sources.  Parametric distance `t` along the ray, hit point `p`, surface
normal `normal` (not guaranteed normalized). -/
structure HitRecord where
  t : ℚ
  p : Vec3
  normal : Vec3
deriving DecidableEq

/-- Library functions and platform values the translation unit relies on. -/
structure Env where
  /-- The C library `sqrtf`. -/
  sqrtf : ℚ → ℚ
  /-- The matrix inverse `glm::inverse`. -/
  inverse : Mat4 → Mat4
  /-- The content of a default-constructed `glm::vec3` local that was never assigned. -/
  uninit_vec3 : Vec3
  /-- The content of a default-constructed `HitRecord` local that was never assigned. -/
  uninit_rec : HitRecord

/-- The function `glm::normalize` on a vector: `v * inversesqrt(dot(v, v))`. -/
def normalize (E : Env) (v : Vec3) : Vec3 := v * (1 / E.sqrtf (dot v v))

/-- The function `glm::normalize` applied to a scalar (GLM's `genType` overload):
the one-dimensional unit vector, `-1` for a negative argument and `1` otherwise. -/
def normalizeScalar (x : ℚ) : ℚ := if x < 0 then -1 else 1

/-! ## Rays, hit records and the scene -/

/-- Modelled from the spec: the class `Ray` is declared in `ray.h`, which is not among
the sources.  Origin point `A`, direction vector `B` (not required normalized). -/
structure Ray where
  A : Vec3
  B : Vec3
deriving DecidableEq

/-- Accessor `Ray::origin()`. -/
def Ray.origin (r : Ray) : Vec3 := r.A

/-- Accessor `Ray::direction()`. -/
def Ray.direction (r : Ray) : Vec3 := r.B

/-- Modelled from the spec: the primitive classes are declared in `sphere.h`, `box.h`
and `triangle.h`, which are not among the sources.  A primitive exposes the single
capability `hit(ray, t_min, t_max) -> optional HitRecord`: `some rec` when the member
function returns true and stores `rec`, `none` when it returns false. -/
structure Hitable where
  hit : Ray → ℚ → ℚ → Option HitRecord

/-- The global `g_scene`. -/
structure Scene where
  ground : Hitable
  spheres : List Hitable
  boxes : List Hitable
  mesh : List Hitable
  mesh_bbox : Hitable

/-- Local state of `hit_world`: `hit_anything`, `closest_so_far` and the caller's `rec`. -/
structure HitState where
  hit_anything : Bool
  closest_so_far : ℚ
  rec_out : HitRecord

/-- One primitive test of `hit_world` (the body shared by lines 28-32 and the three loops). -/
def hitStep (r : Ray) (t_min : ℚ) (st : HitState) (prim : Hitable) : HitState :=
  match prim.hit r t_min st.closest_so_far with
  | some temp_rec => ⟨true, temp_rec.t, temp_rec⟩
  | none => st

/-- The function `hit_world`: returns the Boolean result and the final content of `rec`. -/
def hit_world (g_scene : Scene) (r : Ray) (t_min t_max : ℚ) (rec_in : HitRecord) :
    Bool × HitRecord :=
  let st0 : HitState := ⟨false, t_max, rec_in⟩
  let st1 := hitStep r t_min st0 g_scene.ground
  let st2 := g_scene.spheres.foldl (hitStep r t_min) st1
  let st3 := g_scene.boxes.foldl (hitStep r t_min) st2
  let st4 := g_scene.mesh.foldl (hitStep r t_min) st3
  (st4.hit_anything, st4.rec_out)

/-- Every primitive `hit_world` tests, in test order. -/
def Scene.prims (s : Scene) : List Hitable :=
  s.ground :: (s.spheres ++ s.boxes ++ s.mesh)

/-- Membership of `t` in the range `(a, b)` queried from a primitive; `closed`
selects the closed range `[a, b]` instead of the open one. -/
def inRange (closed : Bool) (a b t : ℚ) : Prop :=
  if closed then a ≤ t ∧ t ≤ b else a < t ∧ t < b

/-- The primitive `h` answers every query on ray `r` with its nearest intersection
inside the queried range: there is a set `S` of intersection parameters such that
a reported hit is the least element of `S` in the range, and no hit is reported
only when `S` has no element in the range. -/
def NearestInRange (h : Hitable) (r : Ray) : Prop :=
  ∃ (closed : Bool) (S : Set ℚ), ∀ a b : ℚ,
    (∀ hr, h.hit r a b = some hr →
      hr.t ∈ S ∧ inRange closed a b hr.t ∧ ∀ s ∈ S, inRange closed a b s → hr.t ≤ s) ∧
    (h.hit r a b = none → ∀ s ∈ S, ¬ inRange closed a b s)

/-! ## Reflection, refraction, Fresnel -/

/-- The function `reflect`. -/
def reflect (I N : Vec3) : Vec3 := I - (2 * dot I N) * N

/-- The function `refract`. -/
def refract (E : Env) (I N : Vec3) (ior : ℚ) : Vec3 :=
  let cosi : ℚ := min (max (-1) 1) (dot I N)
  let etai : ℚ := 1
  let etat : ℚ := ior
  let n : Vec3 := N
  let st : ℚ × ℚ × ℚ × Vec3 :=
    if cosi < 0 then (-cosi, etai, etat, n) else (cosi, etat, etai, -N)
  let cosi := st.1
  let etai := st.2.1
  let etat := st.2.2.1
  let n := st.2.2.2
  let eta : ℚ := etai / etat
  let k : ℚ := 1 - eta * eta * (1 - cosi * cosi)
  if k < 0 then Vec3.splat 0
  else eta * I + (eta * cosi - E.sqrtf k) * n

/-- Denominator of `Rs` in `fresnel`. -/
def fresnelDenS (etai etat cosi cost : ℚ) : ℚ := (etat * cosi) + (etai * cost)

/-- Denominator of `Rp` in `fresnel`. -/
def fresnelDenP (etai etat cosi cost : ℚ) : ℚ := (etai * cosi) + (etat * cost)

/-- Values of the locals of `fresnel` just before the test `sint >= 1`:
`(cosi, etai, etat, sint)`. -/
def fresnelLocals (E : Env) (I N : Vec3) (ior : ℚ) : ℚ × ℚ × ℚ × ℚ :=
  let cosi : ℚ := min (max (-1) 1) (dot I N)
  let etai : ℚ := 1
  let etat : ℚ := ior
  let sw : ℚ × ℚ := if cosi > 0 then (etat, etai) else (etai, etat)
  let etai := sw.1
  let etat := sw.2
  let sint : ℚ := etai / etat * E.sqrtf (max 0 (1 - cosi * cosi))
  (cosi, etai, etat, sint)

/-- The function `fresnel`; the result is the value stored in `kr`. -/
def fresnel (E : Env) (I N : Vec3) (ior : ℚ) : ℚ :=
  let loc := fresnelLocals E I N ior
  let cosi := loc.1
  let etai := loc.2.1
  let etat := loc.2.2.1
  let sint := loc.2.2.2
  if sint ≥ 1 then 1
  else
    let cost : ℚ := E.sqrtf (max 0 (1 - sint * sint))
    let cosi : ℚ := |cosi|
    let Rs : ℚ := ((etat * cosi) - (etai * cost)) / fresnelDenS etai etat cosi cost
    let Rp : ℚ := ((etai * cosi) - (etat * cost)) / fresnelDenP etai etat cosi cost
    (Rs * Rs + Rp * Rp) / 2


/-! ## Render context -/

/-- Modelled from the spec: the struct `RTContext` is declared in `raytracing.h`, which
is not among the sources.  Configuration (image dimensions, view transform, max bounce
depth, max accumulated frames, ground and sky colours, show-normals flag) and render
state (framebuffer of RGBA accumulators, `current_frame` signed with sentinel `-1`,
`current_line`, `freeze`).  The image dimensions are natural numbers. -/
structure RTContext where
  width : Nat
  height : Nat
  view : Mat4
  max_bounces : Int
  max_frames : Int
  ground_color : Vec3
  sky_color : Vec3
  show_normals : Bool
  image : List Vec4
  current_frame : Int
  current_line : Int
  freeze : Bool

/-! ## Shading -/

/-- The local `outside` of `color` (line 147). -/
def glassOutside (r : Ray) (hit_rec : HitRecord) : Bool :=
  decide (dot r.direction hit_rec.normal < 0)

/-- The local `bias` of `color` (line 148). -/
def glassBias (hit_rec : HitRecord) : Vec3 := (0.5 : ℚ) * hit_rec.p

/-- The refraction ray built by `color` (lines 151-153) for a hit record whose normal
has already been normalised; `ior` is the local `ior`. -/
def refractionRay (E : Env) (r : Ray) (hit_rec : HitRecord) (ior : ℚ) : Ray :=
  let outside := glassOutside r hit_rec
  let bias := glassBias hit_rec
  let refractionDirection := refract E r.direction hit_rec.normal (normalizeScalar ior)
  let refractionRayOrig := if outside then hit_rec.p - bias else hit_rec.p + bias
  Ray.mk refractionRayOrig refractionDirection

/-- The reflection ray built by `color` (lines 156-158). -/
def reflectionRay (E : Env) (r : Ray) (hit_rec : HitRecord) : Ray :=
  let outside := glassOutside r hit_rec
  let bias := glassBias hit_rec
  let reflectionDirection := reflect r.direction (normalize E hit_rec.normal)
  let reflectionRayOrig := if outside then hit_rec.p + bias else hit_rec.p - bias
  Ray.mk reflectionRayOrig reflectionDirection

/-- The record `rec` of `color` after a successful `hit_world` and the normalisation of
its normal (lines 122-125). -/
def shadeRecord (E : Env) (g_scene : Scene) (r : Ray) : HitRecord :=
  { (hit_world g_scene r 0 9999 E.uninit_rec).2 with
      normal := normalize E (hit_world g_scene r 0 9999 E.uninit_rec).2.normal }

/-- The sky gradient returned by `color` when nothing is hit (lines 169-171). -/
def skyColor (E : Env) (rtx : RTContext) (r : Ray) : Vec3 :=
  let unit_direction := normalize E r.direction
  let t : ℚ := 0.5 * (unit_direction.y + 1.0)
  ((1.0 : ℚ) - t) * rtx.ground_color + t * rtx.sky_color

/-- Lines 122-171 of `color`, executed when `max_bounces >= 0`; `trace r2` stands for
the recursive call `color(rtx, r2, max_bounces - 1)`. -/
def shade (E : Env) (g_scene : Scene) (rtx : RTContext) (r : Ray) (trace : Ray → Vec3) : Vec3 :=
  let hitColor : Vec3 := E.uninit_vec3
  let hw := hit_world g_scene r 0 9999 E.uninit_rec
  if hw.1 then
    let hit_rec : HitRecord := { hw.2 with normal := normalize E hw.2.normal }
    if rtx.show_normals then hit_rec.normal * (0.5 : ℚ) + (0.5 : ℚ)
    else
      let refractBool : Bool := true
      if !refractBool then
        let reflectionRay := reflect r.direction hit_rec.normal
        let reflectionColor := trace (Ray.mk hit_rec.normal reflectionRay)
        reflectionColor
      else
        let refractionColor : Vec3 := Vec3.splat 0
        let ior : ℚ := 1.5
        let kr : ℚ := fresnel E r.direction hit_rec.normal ior
        let refractionColor : Vec3 :=
          if kr < 1 then trace (refractionRay E r hit_rec ior) else refractionColor
        let reflectionColor : Vec3 := trace (reflectionRay E r hit_rec)
        hitColor + reflectionColor * kr + refractionColor * (1 - kr)
  else skyColor E rtx r

/-- The function `color`. -/
def color (E : Env) (g_scene : Scene) (rtx : RTContext) (r : Ray) (max_bounces : Int) : Vec3 :=
  if h : max_bounces < 0 then Vec3.splat 0
  else shade E g_scene rtx r (fun r2 => color E g_scene rtx r2 (max_bounces - 1))
termination_by (max_bounces + 1).toNat
decreasing_by all_goals omega

/-! ## Render-state controller -/

/-- Read of `image[i]`; an index outside the vector is undefined behaviour. -/
def getAt (img : List Vec4) (i : Int) : Option Vec4 :=
  if 0 ≤ i then img[i.toNat]? else none

/-- Write of `image[i] = v`; an index outside the vector is undefined behaviour. -/
def setAt (img : List Vec4) (i : Int) (v : Vec4) : Option (List Vec4) :=
  if 0 ≤ i ∧ i.toNat < img.length then some (img.set i.toNat v) else none

/-- The call `image.resize(n)`: truncates, or pads with value-initialised (zero) entries. -/
def resize (img : List Vec4) (n : Nat) : List Vec4 :=
  img.take n ++ List.replicate (n - img.length) 0

/-- The camera ray of pixel `(x, y)` (lines 206-213 and 218-222 of `updateLine`). -/
def pixelRay (E : Env) (rtx : RTContext) (x y : Int) : Ray :=
  let nx : Int := rtx.width
  let ny : Int := rtx.height
  let aspect : ℚ := (nx : ℚ) / (ny : ℚ)
  let lower_left_corner : Vec3 := ⟨-1.0 * aspect, -1.0, -1.0⟩
  let horizontal : Vec3 := ⟨2.0 * aspect, 0.0, 0.0⟩
  let vertical : Vec3 := ⟨0.0, 2.0, 0.0⟩
  let origin : Vec3 := ⟨0.0, 0.0, 0.0⟩
  let world_from_view : Mat4 := E.inverse rtx.view
  let u : ℚ := ((x : ℚ) + 0.5) / (nx : ℚ)
  let v : ℚ := ((y : ℚ) + 0.5) / (ny : ℚ)
  let r : Ray := Ray.mk origin (lower_left_corner + u * horizontal + v * vertical)
  let rA : Vec3 := (world_from_view.mulVec (Vec4.ofVec3 r.A 1.0)).xyz
  let rB : Vec3 := (world_from_view.mulVec (Vec4.ofVec3 r.B 0.0)).xyz
  Ray.mk rA rB

/-- The restart blend of one accumulator (line 228):
`glm::clamp(old / glm::max(1.0f, old.a), 0.0f, 1.0f)`. -/
def blendOld (old : Vec4) : Vec4 := Vec4.clamp (old / max (1.0 : ℚ) old.w) 0.0 1.0

/-- Body of the loop of `updateLine` for pixel `x` of scanline `y` (lines 218-231). -/
def updatePixel (E : Env) (g_scene : Scene) (y : Int) (rtx : RTContext) (x : Int) :
    Option RTContext :=
  let nx : Int := rtx.width
  let r := pixelRay E rtx x y
  let blended : Option RTContext :=
    if rtx.current_frame ≤ 0 then
      (getAt rtx.image (y * nx + x)).bind fun old =>
        (setAt rtx.image (y * nx + x) (blendOld old)).map fun img =>
          { rtx with image := img }
    else some rtx
  blended.bind fun rtx1 =>
    let c := color E g_scene rtx1 r rtx1.max_bounces
    (getAt rtx1.image (y * nx + x)).bind fun cur =>
      (setAt rtx1.image (y * nx + x) (cur + Vec4.ofVec3 c 1.0)).map fun img =>
        { rtx1 with image := img }

/-- The function `updateLine`: the loop `for (int x = 0; x < nx; ++x)`. -/
def updateLine (E : Env) (g_scene : Scene) (rtx : RTContext) (y : Int) : Option RTContext :=
  (List.range rtx.width).foldl
    (fun (acc : Option RTContext) (x : Nat) =>
      acc.bind fun s => updatePixel E g_scene y s (x : Int)) (some rtx)

/-- The counter update at the end of `updateImage` (lines 242-248). -/
def advanceCounters (rtx : RTContext) : RTContext :=
  if rtx.current_frame < rtx.max_frames then
    let rtx1 := { rtx with current_line := rtx.current_line + 1 }
    if rtx1.current_line ≥ (rtx1.height : Int) then
      { rtx1 with
          current_frame := rtx1.current_frame + 1
          current_line := Int.tmod rtx1.current_line (rtx1.height : Int) }
    else rtx1
  else rtx

/-- The function `updateImage`, returning besides the new context the list of scanlines
on which it invoked `updateLine` (empty when frozen). -/
def updateImageTraced (E : Env) (g_scene : Scene) (rtx : RTContext) :
    Option (List Int × RTContext) :=
  if rtx.freeze then some ([], rtx)
  else
    let rtx1 := { rtx with image := resize rtx.image (rtx.width * rtx.height) }
    if rtx1.height = 0 then none
    else
      let y : Int := Int.tmod rtx1.current_line (rtx1.height : Int)
      (updateLine E g_scene rtx1 y).map fun rtx2 => ([y], advanceCounters rtx2)

/-- The function `updateImage`. -/
def updateImage (E : Env) (g_scene : Scene) (rtx : RTContext) : Option RTContext :=
  (updateImageTraced E g_scene rtx).map Prod.snd

/-- The function `resetImage`. -/
def resetImage (rtx : RTContext) : RTContext :=
  { rtx with
      image := resize [] (rtx.width * rtx.height)
      current_frame := 0
      current_line := 0
      freeze := false }

/-- The function `resetAccumulation`. -/
def resetAccumulation (rtx : RTContext) : RTContext :=
  { rtx with current_frame := -1 }

/-- Consecutive calls of `updateImage`: `n` calls, with the scanlines passed to
`updateLine` in call order. -/
def runUpdates (E : Env) (g_scene : Scene) : Nat → RTContext → Option (List Int × RTContext)
  | 0, rtx => some ([], rtx)
  | n + 1, rtx =>
    (updateImageTraced E g_scene rtx).bind fun p1 =>
      (runUpdates E g_scene n p1.2).map fun p2 => (p1.1 ++ p2.1, p2.2)

/-- The single-sample colour of pixel `(x, y)`: `color` on the pixel's camera ray. -/
def pixelColor (E : Env) (g_scene : Scene) (rtx : RTContext) (x y : Int) : Vec3 :=
  color E g_scene rtx (pixelRay E rtx x y) rtx.max_bounces

/-- The new accumulator value `updateLine` stores for pixel `(x, y)` whose old value
is `old` (lines 224-231): the restart blend when `current_frame <= 0`, then the
addition of `(c, 1)`. -/
def pixelUpdate (E : Env) (g_scene : Scene) (rtx : RTContext) (y x : Int) (old : Vec4) : Vec4 :=
  (if rtx.current_frame ≤ 0 then blendOld old else old)
    + Vec4.ofVec3 (pixelColor E g_scene rtx x y) 1.0

/-- Value of `current_frame` after a non-frozen `updateImage` that found
`current_line = l` (lines 242-248). -/
def nextFrame (rtx : RTContext) (l : Nat) : Int :=
  if rtx.current_frame < rtx.max_frames ∧ rtx.height ≤ l + 1 then rtx.current_frame + 1
  else rtx.current_frame

/-- Value of `current_line` after a non-frozen `updateImage` that found
`current_line = l < height` (lines 242-248). -/
def nextLine (rtx : RTContext) (l : Nat) : Int :=
  if rtx.current_frame < rtx.max_frames then (if rtx.height ≤ l + 1 then 0 else (l : Int) + 1)
  else (l : Int)

/-- The accumulator holding `N` samples of colour `c`: `(N * c, N)`. -/
def accValue (N : Nat) (c : Vec3) : Vec4 := ⟨N * c.x, N * c.y, N * c.z, N⟩

/-- State reached from `resetImage` by non-frozen `updateImage` calls under the
configuration `cfg`, where `tr` lists the scanlines visited so far: the configuration
is that of `cfg`, the cursor is inside the image, during frame `0` the scanlines from
the cursor on are still unvisited, and every accumulator holds as many samples of its
pixel colour as its scanline was visited. -/
def RunInv (E : Env) (g_scene : Scene) (cfg : RTContext) (tr : List Int) (rtx : RTContext) :
    Prop :=
  ∃ (img : List Vec4) (cf : Int) (l : Nat),
    rtx = { cfg with image := img, current_frame := cf, current_line := (l : Int) } ∧
    l < cfg.height ∧ 0 ≤ cf ∧
    (cf = 0 → ∀ y : Nat, l ≤ y → tr.count (y : Int) = 0) ∧
    img.length = cfg.width * cfg.height ∧
    ∀ x y : Nat, x < cfg.width → y < cfg.height →
      img[y * cfg.width + x]? =
        some (accValue (tr.count (y : Int)) (pixelColor E g_scene cfg x y))

/-! ## Sample data used to instantiate the theorems -/

/-- A primitive that every ray meets exactly once, at parameter `t0`; it answers a
query with that intersection when `t_min < t0 < t_max`. -/
def Hitable.single (t0 : ℚ) (p n : Vec3) : Hitable :=
  ⟨fun _ t_min t_max => if t_min < t0 ∧ t0 < t_max then some ⟨t0, p, n⟩ else none⟩

/-- A primitive no ray meets. -/
def Hitable.never : Hitable := ⟨fun _ _ _ => none⟩

/-- A rational stand-in for `sqrtf`: zero on non-positive arguments, one Heron step
from `1` otherwise.  It is non-negative, positive on positive arguments and maps `1`
to `1`. -/
def sqrtSample (x : ℚ) : ℚ := if x ≤ 0 then 0 else (x + 1) / 2

/-- The identity matrix. -/
def Mat4.one : Mat4 := ⟨⟨1, 0, 0, 0⟩, ⟨0, 1, 0, 0⟩, ⟨0, 0, 1, 0⟩, ⟨0, 0, 0, 1⟩⟩

/-- An environment for examples: `sqrtSample`, the identity in place of the matrix
inverse (exact on the identity view), zero-filled uninitialised locals. -/
def envSample : Env := ⟨sqrtSample, fun m => m, 0, ⟨0, 0, 0⟩⟩

/-- A scene for examples: the ground is met at `t = 2`, one sphere at `t = 1`. -/
def sceneSample : Scene :=
  ⟨Hitable.single 2 ⟨0, -1, 0⟩ ⟨0, 1, 0⟩, [Hitable.single 1 ⟨0, 0, -1⟩ ⟨0, 0, 1⟩], [], [],
    Hitable.never⟩

/-- A scene without any intersection. -/
def sceneEmpty : Scene := ⟨Hitable.never, [], [], [], Hitable.never⟩

/-- A render context for examples: 2 by 4 pixels, identity view. -/
def rtxSample : RTContext :=
  { width := 2, height := 4, view := Mat4.one, max_bounces := 1, max_frames := 3,
    ground_color := ⟨1, 1, 1⟩, sky_color := ⟨1/2, 7/10, 1⟩, show_normals := false,
    image := [], current_frame := 0, current_line := 0, freeze := false }

/-- A ray that meets the sample sphere obliquely. -/
def rayOblique : Ray := ⟨⟨0, 0, 0⟩, ⟨1, 0, -1⟩⟩

/-- A context as after `resetAccumulation` whose accumulators all hold `(2, 4, 6, 2)`. -/
def rtxBlend : RTContext :=
  resetAccumulation { rtxSample with image := List.replicate 8 ⟨2, 4, 6, 2⟩ }

/-! ## Auxiliary definitions for the refraction, cursor and range properties -/

/-- The local `k` of `refract` (line 71), the discriminant of Snell's law, computed
from the same locals as in `refract` (lines 66-70). -/
def refractDiscriminant (I N : Vec3) (ior : ℚ) : ℚ :=
  let cosi : ℚ := min (max (-1) 1) (dot I N)
  let etai : ℚ := 1
  let etat : ℚ := ior
  let st : ℚ × ℚ × ℚ := if cosi < 0 then (-cosi, etai, etat) else (cosi, etat, etai)
  let cosi := st.1
  let etai := st.2.1
  let etat := st.2.2
  let eta : ℚ := etai / etat
  1 - eta * eta * (1 - cosi * cosi)

/-- The locals `(cosi, eta, n)` of `refract` after the branch on the sign of `cosi`
(lines 66-70). -/
def refractLocals (I N : Vec3) (ior : ℚ) : ℚ × ℚ × Vec3 :=
  let cosi : ℚ := min (max (-1) 1) (dot I N)
  let etai : ℚ := 1
  let etat : ℚ := ior
  let n : Vec3 := N
  let st : ℚ × ℚ × ℚ × Vec3 :=
    if cosi < 0 then (-cosi, etai, etat, n) else (cosi, etat, etai, -N)
  (st.1, st.2.1 / st.2.2.1, st.2.2.2)

/-- Every component of the colour lies in `[0, 1]`. -/
def InUnit (c : Vec3) : Prop :=
  (0 ≤ c.x ∧ c.x ≤ 1) ∧ (0 ≤ c.y ∧ c.y ≤ 1) ∧ (0 ≤ c.z ∧ c.z ≤ 1)

/-- A ray travelling straight down that meets the sphere of centre `(1, 0, 0)` and radius
`0.5` of `setupScene` from outside, on the side facing the world origin. -/
def raySide : Ray := ⟨⟨7 / 10, 5, 0⟩, ⟨0, -1, 0⟩⟩

/-- The hit of `raySide` on that sphere: `t = 4.6`, point `(0.7, 0.4, 0)`, outward unit
normal `(point - centre) / radius = (-0.6, 0.8, 0)`. -/
def recSide : HitRecord := ⟨23 / 5, ⟨7 / 10, 2 / 5, 0⟩, ⟨-3 / 5, 4 / 5, 0⟩⟩

/-- The largest `int`. -/
def INT_MAX : Int := 2147483647

/-- Reduction of an integer result to the range of a 32-bit two's complement `int`. -/
def wrap32 (z : Int) : Int := (z + 2147483648) % 4294967296 - 2147483648

/-- Body of the loop of `updateLine` (lines 218-231) with the index `y * nx + x`
computed in `int`. -/
def updatePixel32 (E : Env) (g_scene : Scene) (y : Int) (rtx : RTContext) (x : Int) :
    Option RTContext :=
  let nx : Int := rtx.width
  let r := pixelRay E rtx x y
  let idx : Int := wrap32 (wrap32 (y * nx) + x)
  let blended : Option RTContext :=
    if rtx.current_frame ≤ 0 then
      (getAt rtx.image idx).bind fun old =>
        (setAt rtx.image idx (blendOld old)).map fun img =>
          { rtx with image := img }
    else some rtx
  blended.bind fun rtx1 =>
    let c := color E g_scene rtx1 r rtx1.max_bounces
    (getAt rtx1.image idx).bind fun cur =>
      (setAt rtx1.image idx (cur + Vec4.ofVec3 c 1.0)).map fun img =>
        { rtx1 with image := img }

/-- The function `updateLine` with `int` indices. -/
def updateLine32 (E : Env) (g_scene : Scene) (rtx : RTContext) (y : Int) : Option RTContext :=
  (List.range rtx.width).foldl
    (fun (acc : Option RTContext) (x : Nat) =>
      acc.bind fun s => updatePixel32 E g_scene y s (x : Int)) (some rtx)

/-- The counter update of `updateImage` (lines 242-248) with `int` increments. -/
def advanceCounters32 (rtx : RTContext) : RTContext :=
  if rtx.current_frame < rtx.max_frames then
    let rtx1 := { rtx with current_line := wrap32 (rtx.current_line + 1) }
    if rtx1.current_line ≥ (rtx1.height : Int) then
      { rtx1 with
          current_frame := wrap32 (rtx1.current_frame + 1)
          current_line := Int.tmod rtx1.current_line (rtx1.height : Int) }
    else rtx1
  else rtx

/-- The function `updateImage` with `int` arithmetic: the size passed to `resize` is the
`int` product `width * height` converted to `size_t`; a negative product converts to a
size above `max_size()`, for which `resize` throws. -/
def updateImage32 (E : Env) (g_scene : Scene) (rtx : RTContext) : Option RTContext :=
  if rtx.freeze then some rtx
  else
    let n : Int := wrap32 ((rtx.width : Int) * (rtx.height : Int))
    if n < 0 then none
    else
      let rtx1 := { rtx with image := resize rtx.image n.toNat }
      if rtx1.height = 0 then none
      else
        let y : Int := Int.tmod rtx1.current_line (rtx1.height : Int)
        (updateLine32 E g_scene rtx1 y).map advanceCounters32

/-- The sample context with dimensions 65536 by 65536, whose `int` product wraps to
zero. -/
def rtxHuge : RTContext := { rtxSample with width := 65536, height := 65536 }

/-! ## Component lemmas -/

@[simp] theorem v3_zero_x : (0 : Vec3).x = 0 := rfl
@[simp] theorem v3_zero_y : (0 : Vec3).y = 0 := rfl
@[simp] theorem v3_zero_z : (0 : Vec3).z = 0 := rfl
@[simp] theorem v3_add_x (a b : Vec3) : (a + b).x = a.x + b.x := rfl
@[simp] theorem v3_add_y (a b : Vec3) : (a + b).y = a.y + b.y := rfl
@[simp] theorem v3_add_z (a b : Vec3) : (a + b).z = a.z + b.z := rfl
@[simp] theorem v3_sub_x (a b : Vec3) : (a - b).x = a.x - b.x := rfl
@[simp] theorem v3_sub_y (a b : Vec3) : (a - b).y = a.y - b.y := rfl
@[simp] theorem v3_sub_z (a b : Vec3) : (a - b).z = a.z - b.z := rfl
@[simp] theorem v3_neg_x (a : Vec3) : (-a).x = -a.x := rfl
@[simp] theorem v3_neg_y (a : Vec3) : (-a).y = -a.y := rfl
@[simp] theorem v3_neg_z (a : Vec3) : (-a).z = -a.z := rfl
@[simp] theorem v3_smul_x (s : ℚ) (a : Vec3) : (s * a).x = s * a.x := rfl
@[simp] theorem v3_smul_y (s : ℚ) (a : Vec3) : (s * a).y = s * a.y := rfl
@[simp] theorem v3_smul_z (s : ℚ) (a : Vec3) : (s * a).z = s * a.z := rfl
@[simp] theorem v3_muls_x (a : Vec3) (s : ℚ) : (a * s).x = a.x * s := rfl
@[simp] theorem v3_muls_y (a : Vec3) (s : ℚ) : (a * s).y = a.y * s := rfl
@[simp] theorem v3_muls_z (a : Vec3) (s : ℚ) : (a * s).z = a.z * s := rfl
@[simp] theorem v3_adds_x (a : Vec3) (s : ℚ) : (a + s).x = a.x + s := rfl
@[simp] theorem v3_adds_y (a : Vec3) (s : ℚ) : (a + s).y = a.y + s := rfl
@[simp] theorem v3_adds_z (a : Vec3) (s : ℚ) : (a + s).z = a.z + s := rfl
@[simp] theorem v4_zero_x : (0 : Vec4).x = 0 := rfl
@[simp] theorem v4_zero_y : (0 : Vec4).y = 0 := rfl
@[simp] theorem v4_zero_z : (0 : Vec4).z = 0 := rfl
@[simp] theorem v4_zero_w : (0 : Vec4).w = 0 := rfl
@[simp] theorem v4_add_x (a b : Vec4) : (a + b).x = a.x + b.x := rfl
@[simp] theorem v4_add_y (a b : Vec4) : (a + b).y = a.y + b.y := rfl
@[simp] theorem v4_add_z (a b : Vec4) : (a + b).z = a.z + b.z := rfl
@[simp] theorem v4_add_w (a b : Vec4) : (a + b).w = a.w + b.w := rfl
@[simp] theorem v4_muls_x (a : Vec4) (s : ℚ) : (a * s).x = a.x * s := rfl
@[simp] theorem v4_muls_y (a : Vec4) (s : ℚ) : (a * s).y = a.y * s := rfl
@[simp] theorem v4_muls_z (a : Vec4) (s : ℚ) : (a * s).z = a.z * s := rfl
@[simp] theorem v4_muls_w (a : Vec4) (s : ℚ) : (a * s).w = a.w * s := rfl
@[simp] theorem v4_div_x (a : Vec4) (s : ℚ) : (a / s).x = a.x / s := rfl
@[simp] theorem v4_div_y (a : Vec4) (s : ℚ) : (a / s).y = a.y / s := rfl
@[simp] theorem v4_div_z (a : Vec4) (s : ℚ) : (a / s).z = a.z / s := rfl
@[simp] theorem v4_div_w (a : Vec4) (s : ℚ) : (a / s).w = a.w / s := rfl

/-! ## Scene aggregation: `hit_world` -/

theorem inRange_le {closed : Bool} {a b t : ℚ} (h : inRange closed a b t) : t ≤ b := by
  unfold inRange at h
  split at h
  · exact h.2
  · exact le_of_lt h.2

theorem inRange_shrink {closed : Bool} {a b c t : ℚ} (h : inRange closed a b t)
    (hn : ¬ inRange closed a c t) : c ≤ t := by
  cases closed
  · simp only [inRange, Bool.false_eq_true, if_false, not_and, not_lt] at h hn
    exact hn h.1
  · simp only [inRange, if_true, not_and, not_le] at h hn
    exact le_of_lt (hn h.1)

theorem hit_world_eq_foldl (g_scene : Scene) (r : Ray) (t_min t_max : ℚ) (rec_in : HitRecord) :
    hit_world g_scene r t_min t_max rec_in =
      ((g_scene.prims.foldl (hitStep r t_min) ⟨false, t_max, rec_in⟩).hit_anything,
       (g_scene.prims.foldl (hitStep r t_min) ⟨false, t_max, rec_in⟩).rec_out) := by
  simp [hit_world, Scene.prims, List.foldl_append]

/-- One primitive test: the bound shrinks, stays consistent with the stored record and
ends below the tested primitive's own answer for the original range. -/
theorem hitStep_inv (r : Ray) (t_min t_max : ℚ) (st : HitState) (p : Hitable)
    (hp : NearestInRange p r)
    (hc : st.hit_anything = true → st.rec_out.t = st.closest_so_far) :
    (hitStep r t_min st p).closest_so_far ≤ st.closest_so_far ∧
    ((hitStep r t_min st p).hit_anything = true →
      (hitStep r t_min st p).rec_out.t = (hitStep r t_min st p).closest_so_far) ∧
    (∀ hr, p.hit r t_min t_max = some hr → (hitStep r t_min st p).closest_so_far ≤ hr.t) := by
  obtain ⟨closed, S, hS⟩ := hp
  have horig := (hS t_min t_max).1
  have hcur := hS t_min st.closest_so_far
  unfold hitStep
  cases hq : p.hit r t_min st.closest_so_far with
  | none =>
    refine ⟨le_refl _, hc, ?_⟩
    intro hr hhr
    obtain ⟨hmem, hin, -⟩ := horig hr hhr
    exact inRange_shrink hin (hcur.2 hq hr.t hmem)
  | some temp_rec =>
    obtain ⟨-, hin', hmin'⟩ := hcur.1 temp_rec hq
    refine ⟨inRange_le hin', fun _ => rfl, ?_⟩
    intro hr hhr
    obtain ⟨hmem, hin, -⟩ := horig hr hhr
    by_cases hx : inRange closed t_min st.closest_so_far hr.t
    · exact hmin' hr.t hmem hx
    · exact le_trans (inRange_le hin') (inRange_shrink hin hx)

/-- The loop invariant of `hit_world` over any list of primitives. -/
theorem foldl_hitStep_inv (r : Ray) (t_min t_max : ℚ) (l : List Hitable)
    (hl : ∀ p ∈ l, NearestInRange p r) (st : HitState) (hb : st.closest_so_far ≤ t_max)
    (hc : st.hit_anything = true → st.rec_out.t = st.closest_so_far) :
    (l.foldl (hitStep r t_min) st).closest_so_far ≤ st.closest_so_far ∧
    ((l.foldl (hitStep r t_min) st).hit_anything = true →
      (l.foldl (hitStep r t_min) st).rec_out.t = (l.foldl (hitStep r t_min) st).closest_so_far) ∧
    (∀ p ∈ l, ∀ hr, p.hit r t_min t_max = some hr →
      (l.foldl (hitStep r t_min) st).closest_so_far ≤ hr.t) := by
  induction l generalizing st with
  | nil => exact ⟨le_refl _, hc, fun p hp => absurd hp (List.not_mem_nil p)⟩
  | cons q l ih =>
    obtain ⟨h1, h2, h3⟩ := hitStep_inv r t_min t_max st q (hl q (List.mem_cons_self q l)) hc
    obtain ⟨k1, k2, k3⟩ := ih (fun p hp => hl p (List.mem_cons_of_mem q hp))
      (hitStep r t_min st q) (le_trans h1 hb) h2
    refine ⟨le_trans k1 h1, k2, ?_⟩
    intro p hp hr hhr
    rcases List.mem_cons.1 hp with rfl | hp
    · exact le_trans k1 (h3 hr hhr)
    · exact k3 p hp hr hhr

theorem single_nearest (t0 : ℚ) (p n : Vec3) (r : Ray) :
    NearestInRange (Hitable.single t0 p n) r := by
  refine ⟨false, {t0}, fun a b => ⟨?_, ?_⟩⟩
  · intro hr h
    simp only [Hitable.single] at h
    split at h
    · rename_i hab
      cases h
      refine ⟨rfl, by simpa [inRange] using hab, ?_⟩
      intro s hs _
      rw [Set.mem_singleton_iff.1 hs]
    · cases h
  · intro h s hs
    rw [Set.mem_singleton_iff.1 hs]
    simp only [Hitable.single] at h
    split at h
    · cases h
    · simpa [inRange] using ‹¬ (a < t0 ∧ t0 < b)›

theorem never_nearest (r : Ray) : NearestInRange Hitable.never r := by
  refine ⟨false, ∅, fun a b => ⟨?_, ?_⟩⟩
  · intro hr h
    cases h
  · intro _ s hs
    exact absurd hs (Set.not_mem_empty s)

theorem sceneSample_nearest (r : Ray) : ∀ p ∈ sceneSample.prims, NearestInRange p r := by
  intro p hp
  simp only [sceneSample, Scene.prims, List.append_nil, List.mem_cons, List.mem_singleton,
    List.not_mem_nil, or_false] at hp
  rcases hp with rfl | rfl
  · exact single_nearest _ _ _ r
  · exact single_nearest _ _ _ r

/-- C1 (closest hit).  When every primitive of the scene answers a query with its
nearest intersection inside the queried range, a record returned by
`hit_world(r, t_min, t_max)` has a `t` that is at most the `t` of the answer of each
primitive (ground, spheres, boxes, mesh triangles, in any order) to its own
`hit(r, t_min, t_max)`. -/
theorem hit_world_closest (g_scene : Scene) (r : Ray) (t_min t_max : ℚ) (rec_in : HitRecord)
    (hN : ∀ p ∈ g_scene.prims, NearestInRange p r) (rec_out : HitRecord)
    (h : hit_world g_scene r t_min t_max rec_in = (true, rec_out)) :
    ∀ p ∈ g_scene.prims, ∀ hr, p.hit r t_min t_max = some hr → rec_out.t ≤ hr.t := by
  rw [hit_world_eq_foldl] at h
  obtain ⟨-, k2, k3⟩ := foldl_hitStep_inv r t_min t_max g_scene.prims hN
    ⟨false, t_max, rec_in⟩ (le_refl _) (fun hf => by cases hf)
  have hhit := congrArg Prod.fst h
  have hrec := congrArg Prod.snd h
  simp only at hhit hrec
  intro p hp hr hhr
  have := k3 p hp hr hhr
  rw [← k2 hhit, hrec] at this
  exact this

/-- Instance of C1: in the sample scene the ground is met at `t = 2` and the sphere at
`t = 1`; `hit_world` returns the sphere hit, which is below both answers. -/
theorem hit_world_closest_witness :
    hit_world sceneSample ⟨0, ⟨0, 0, -1⟩⟩ 0 9999 ⟨0, 0, 0⟩ = (true, ⟨1, ⟨0, 0, -1⟩, ⟨0, 0, 1⟩⟩) ∧
    ∀ p ∈ sceneSample.prims, ∀ hr, p.hit ⟨0, ⟨0, 0, -1⟩⟩ 0 9999 = some hr → (1 : ℚ) ≤ hr.t :=
  have h : hit_world sceneSample ⟨0, ⟨0, 0, -1⟩⟩ 0 9999 ⟨0, 0, 0⟩
      = (true, ⟨1, ⟨0, 0, -1⟩, ⟨0, 0, 1⟩⟩) := by
    norm_num [hit_world, hitStep, sceneSample, Hitable.single]
  ⟨h, hit_world_closest sceneSample ⟨0, ⟨0, 0, -1⟩⟩ 0 9999 ⟨0, 0, 0⟩
    (sceneSample_nearest _) ⟨1, ⟨0, 0, -1⟩, ⟨0, 0, 1⟩⟩ h⟩

/-! ## Shading: `color` -/

/-- The body of `color` reads only three fields of the context. -/
theorem shade_congr (E : Env) (g_scene : Scene) (rtx rtx2 : RTContext) (r : Ray)
    (tr tr2 : Ray → Vec3) (hs : rtx.show_normals = rtx2.show_normals)
    (hg : rtx.ground_color = rtx2.ground_color) (hk : rtx.sky_color = rtx2.sky_color)
    (ht : ∀ q, tr q = tr2 q) :
    shade E g_scene rtx r tr = shade E g_scene rtx2 r tr2 := by
  have : tr = tr2 := funext ht
  subst this
  simp only [shade, skyColor, hs, hg, hk]

/-- The result of `color` depends on the context only through `show_normals`,
`ground_color` and `sky_color`. -/
theorem color_congr (E : Env) (g_scene : Scene) (rtx rtx2 : RTContext)
    (hs : rtx.show_normals = rtx2.show_normals)
    (hg : rtx.ground_color = rtx2.ground_color) (hk : rtx.sky_color = rtx2.sky_color)
    (r : Ray) (max_bounces : Int) :
    color E g_scene rtx r max_bounces = color E g_scene rtx2 r max_bounces := by
  have key : ∀ n : Nat, ∀ mb : Int, (mb + 1).toNat = n → ∀ q : Ray,
      color E g_scene rtx q mb = color E g_scene rtx2 q mb := by
    intro n
    induction n with
    | zero =>
      intro mb hmb q
      have hneg : mb < 0 := by omega
      rw [color, color]
      simp only [hneg, dite_true]
    | succ n ih =>
      intro mb hmb q
      have hpos : ¬ mb < 0 := by omega
      rw [color, color.eq_1 E g_scene rtx2]
      simp only [hpos, dite_false]
      exact shade_congr E g_scene rtx rtx2 q _ _ hs hg hk
        (fun q2 => ih (mb - 1) (by omega) q2)
  exact key _ max_bounces rfl r

theorem color_negative_depth_aux (E : Env) (g_scene : Scene) (rtx : RTContext) (r : Ray)
    (max_bounces : Int) (h : max_bounces < 0) :
    color E g_scene rtx r max_bounces = ⟨0, 0, 0⟩ := by
  rw [color]
  simp only [h, dite_true, Vec3.splat]

/-- C2 (depth termination).  For every environment, scene, context and ray, and every
`max_bounces < 0`, `color` returns black, whether or not the ray hits anything and
whatever `show_normals` is. -/
theorem color_negative_depth (E : Env) (g_scene : Scene) (rtx : RTContext) (r : Ray)
    (max_bounces : Int) (h : max_bounces < 0) :
    color E g_scene rtx r max_bounces = ⟨0, 0, 0⟩ :=
  color_negative_depth_aux E g_scene rtx r max_bounces h

/-- Instance of C2 at `max_bounces = -1` on a ray that hits the sample scene. -/
theorem color_negative_depth_witness :
    color envSample sceneSample rtxSample ⟨0, ⟨0, 0, -1⟩⟩ (-1) = ⟨0, 0, 0⟩ :=
  color_negative_depth envSample sceneSample rtxSample ⟨0, ⟨0, 0, -1⟩⟩ (-1) (by decide)

/-! ## Render-state controller: `updateLine` -/

theorem getAt_natCast (img : List Vec4) (i : Nat) : getAt img (i : Int) = img[i]? := by
  simp [getAt]

theorem setAt_natCast (img : List Vec4) (i : Nat) (v : Vec4) (h : i < img.length) :
    setAt img (i : Int) v = some (img.set i v) := by
  simp [setAt, h]

theorem pixelColor_image (E : Env) (g_scene : Scene) (rtx : RTContext) (img : List Vec4)
    (x y : Int) :
    pixelColor E g_scene { rtx with image := img } x y = pixelColor E g_scene rtx x y := by
  exact color_congr E g_scene { rtx with image := img } rtx rfl rfl rfl _ _

theorem pixelUpdate_image (E : Env) (g_scene : Scene) (rtx : RTContext) (img : List Vec4)
    (y x : Int) (old : Vec4) :
    pixelUpdate E g_scene { rtx with image := img } y x old
      = pixelUpdate E g_scene rtx y x old := by
  unfold pixelUpdate
  rw [pixelColor_image]

/-- One iteration of the loop of `updateLine` on an in-range pixel. -/
theorem updatePixel_spec (E : Env) (g_scene : Scene) (rtx : RTContext) (y x : Nat)
    (old : Vec4) (hold : rtx.image[y * rtx.width + x]? = some old) :
    updatePixel E g_scene (y : Int) rtx (x : Int)
      = some { rtx with
          image := rtx.image.set (y * rtx.width + x) (pixelUpdate E g_scene rtx y x old) } := by
  have hidx : (y : Int) * (rtx.width : Int) + (x : Int) = ((y * rtx.width + x : Nat) : Int) := by
    push_cast
    rfl
  have hlt : y * rtx.width + x < rtx.image.length := by
    by_contra hc
    rw [List.getElem?_eq_none (by omega)] at hold
    cases hold
  unfold updatePixel
  simp only [hidx, getAt_natCast]
  by_cases hf : rtx.current_frame ≤ 0
  · have hlt2 : y * rtx.width + x
        < (rtx.image.set (y * rtx.width + x) (blendOld old)).length := by
      simpa using hlt
    have hc : color E g_scene
        { rtx with image := rtx.image.set (y * rtx.width + x) (blendOld old) }
        (pixelRay E rtx x y) rtx.max_bounces = pixelColor E g_scene rtx x y :=
      pixelColor_image E g_scene rtx _ x y
    simp only [if_pos hf, hold, Option.some_bind, setAt_natCast _ _ _ hlt, Option.map_some',
      List.getElem?_set_self hlt, setAt_natCast _ _ _ hlt2, List.set_set, pixelUpdate]
    rw [hc]
  · simp only [if_neg hf, hold, Option.some_bind, setAt_natCast _ _ _ hlt, Option.map_some',
      pixelUpdate, pixelColor]

/-- The first `k` iterations of the loop of `updateLine` on a scanline that lies inside
the framebuffer: only the image changes, and only at the first `k` pixels of the
scanline, each from its own old value. -/
theorem updateLine_loop (E : Env) (g_scene : Scene) (rtx : RTContext) (y : Nat)
    (hrow : (y + 1) * rtx.width ≤ rtx.image.length) (k : Nat) (hk : k ≤ rtx.width) :
    ∃ img : List Vec4,
      (List.range k).foldl
          (fun (acc : Option RTContext) (x : Nat) =>
            acc.bind fun s => updatePixel E g_scene (y : Int) s (x : Int)) (some rtx)
        = some { rtx with image := img } ∧
      img.length = rtx.image.length ∧
      ∀ i : Nat, img[i]? =
        if y * rtx.width ≤ i ∧ i < y * rtx.width + k then
          (rtx.image[i]?).map (pixelUpdate E g_scene rtx y ((i - y * rtx.width : Nat) : Int))
        else rtx.image[i]? := by
  induction k with
  | zero =>
    refine ⟨rtx.image, rfl, rfl, fun i => ?_⟩
    have : ¬ (y * rtx.width ≤ i ∧ i < y * rtx.width + 0) := by omega
    rw [if_neg this]
  | succ k ih =>
    obtain ⟨img, hfold, hlen, hpt⟩ := ih (by omega)
    have hlt : y * rtx.width + k < rtx.image.length := by
      have : (y + 1) * rtx.width = y * rtx.width + rtx.width := by ring
      omega
    have hold : img[y * rtx.width + k]? = some (rtx.image[y * rtx.width + k]) := by
      rw [hpt, if_neg (by omega), List.getElem?_eq_getElem hlt]
    have hstep := updatePixel_spec E g_scene { rtx with image := img } y k _ hold
    rw [pixelUpdate_image] at hstep
    refine ⟨img.set (y * rtx.width + k)
      (pixelUpdate E g_scene rtx y k (rtx.image[y * rtx.width + k])), ?_, ?_, ?_⟩
    · rw [List.range_succ, List.foldl_append, hfold]
      simpa using hstep
    · simpa using hlen
    · intro i
      rw [List.getElem?_set]
      by_cases hi : y * rtx.width + k = i
      · subst hi
        rw [if_pos rfl, if_pos (by omega), if_pos (by omega), List.getElem?_eq_getElem hlt]
        simp
      · rw [if_neg hi, hpt]
        by_cases h1 : y * rtx.width ≤ i ∧ i < y * rtx.width + k
        · rw [if_pos h1, if_pos (by omega)]
        · rw [if_neg h1, if_neg (by omega)]

/-- Effect of `updateLine` on a scanline that lies inside the framebuffer. -/
theorem updateLine_spec (E : Env) (g_scene : Scene) (rtx : RTContext) (y : Nat)
    (hrow : (y + 1) * rtx.width ≤ rtx.image.length) :
    ∃ img : List Vec4,
      updateLine E g_scene rtx (y : Int) = some { rtx with image := img } ∧
      img.length = rtx.image.length ∧
      ∀ i : Nat, img[i]? =
        if y * rtx.width ≤ i ∧ i < y * rtx.width + rtx.width then
          (rtx.image[i]?).map (pixelUpdate E g_scene rtx y ((i - y * rtx.width : Nat) : Int))
        else rtx.image[i]? := by
  unfold updateLine
  exact updateLine_loop E g_scene rtx y hrow rtx.width (le_refl _)

/-- C4 (reset-accumulation blend).  When `updateLine` runs on scanline `y` with
`current_frame <= 0`, the pixel `(x, y)` whose old accumulator is `old = (r, g, b, a)`
receives `clamp(old / max(1, a), 0, 1) + (c, 1)` in all four components, `c` being the
colour of the pixel's ray; for `old = (2, 4, 6, 2)` this is
`(1 + c.r, 1 + c.g, 1 + c.b, 2)`. -/
theorem updateLine_restart_blend (E : Env) (g_scene : Scene) (rtx : RTContext) (y x : Nat)
    (hrow : (y + 1) * rtx.width ≤ rtx.image.length) (hx : x < rtx.width)
    (hf : rtx.current_frame ≤ 0) (old : Vec4)
    (hold : rtx.image[y * rtx.width + x]? = some old) :
    ∃ rtx2 : RTContext, updateLine E g_scene rtx (y : Int) = some rtx2 ∧
      rtx2.image[y * rtx.width + x]? =
        some (Vec4.clamp (old / max 1 old.w) 0 1
              + Vec4.ofVec3 (pixelColor E g_scene rtx x y) 1) ∧
      (old = ⟨2, 4, 6, 2⟩ →
        rtx2.image[y * rtx.width + x]? =
          some ⟨1 + (pixelColor E g_scene rtx x y).x, 1 + (pixelColor E g_scene rtx x y).y,
                1 + (pixelColor E g_scene rtx x y).z, 2⟩) := by
  obtain ⟨img, hrun, -, hpt⟩ := updateLine_spec E g_scene rtx y hrow
  have hval : img[y * rtx.width + x]? =
      some (Vec4.clamp (old / max 1 old.w) 0 1
            + Vec4.ofVec3 (pixelColor E g_scene rtx x y) 1) := by
    rw [hpt, if_pos (by omega), hold, Option.map_some', Nat.add_sub_cancel_left]
    simp only [pixelUpdate, if_pos hf, blendOld]
    norm_num
  refine ⟨_, hrun, hval, ?_⟩
  intro h2
  subst h2
  show img[y * rtx.width + x]? = _
  rw [hval]
  congr 1
  ext <;> simp [Vec4.clamp, Vec4.ofVec3] <;> norm_num

/-- Instance of C4: pixel `(1, 0)` of a 2 by 4 image whose accumulators hold
`(2, 4, 6, 2)`, right after `resetAccumulation`. -/
theorem updateLine_restart_blend_witness :
    ∃ rtx2 : RTContext, updateLine envSample sceneSample rtxBlend ((0 : Nat) : Int) = some rtx2 ∧
      rtx2.image[0 * rtxBlend.width + 1]? =
        some (Vec4.clamp ((⟨2, 4, 6, 2⟩ : Vec4) / max 1 (⟨2, 4, 6, 2⟩ : Vec4).w) 0 1
              + Vec4.ofVec3 (pixelColor envSample sceneSample rtxBlend (1 : Nat) (0 : Nat)) 1) ∧
      ((⟨2, 4, 6, 2⟩ : Vec4) = ⟨2, 4, 6, 2⟩ →
        rtx2.image[0 * rtxBlend.width + 1]? =
          some ⟨1 + (pixelColor envSample sceneSample rtxBlend (1 : Nat) (0 : Nat)).x,
                1 + (pixelColor envSample sceneSample rtxBlend (1 : Nat) (0 : Nat)).y,
                1 + (pixelColor envSample sceneSample rtxBlend (1 : Nat) (0 : Nat)).z, 2⟩) :=
  updateLine_restart_blend envSample sceneSample rtxBlend 0 1 (by decide) (by decide)
    (by decide) ⟨2, 4, 6, 2⟩ rfl

/-! ## Render-state controller: `updateImage` -/

theorem resize_length (img : List Vec4) (n : Nat) : (resize img n).length = n := by
  simp only [resize, List.length_append, List.length_take, List.length_replicate]
  omega

theorem resize_self (img : List Vec4) (n : Nat) (h : img.length = n) : resize img n = img := by
  simp [resize, h]

theorem advanceCounters_eq (rtx : RTContext) (l : Nat) (hl : l < rtx.height)
    (hcl : rtx.current_line = (l : Int)) :
    advanceCounters rtx
      = { rtx with current_frame := nextFrame rtx l, current_line := nextLine rtx l } := by
  obtain ⟨w, h, v, mb, mf, gc, sc, sn, im, cf, cl, fz⟩ := rtx
  simp only at hl hcl
  subst hcl
  unfold advanceCounters nextFrame nextLine
  by_cases hc : cf < mf
  · by_cases hw : h ≤ l + 1
    · have h1 : ((l : Int) + 1) ≥ (h : Int) := by omega
      have h2 : Int.tmod ((l : Int) + 1) (h : Int) = 0 := by
        have : (l : Int) + 1 = (h : Int) := by omega
        rw [this, Int.tmod_self]
      simp only [hc, if_true, h1, h2, hw, and_self]
    · have h1 : ¬ ((l : Int) + 1) ≥ (h : Int) := by omega
      simp only [hc, if_true, h1, if_false, hw, and_false]
  · simp only [hc, if_false, false_and]

/-- One non-frozen call of `updateImage` with `0 <= current_line < height`: it runs
`updateLine` on scanline `current_line` of the resized framebuffer and then advances
the counters. -/
theorem updateImageTraced_step (E : Env) (g_scene : Scene) (rtx : RTContext) (l : Nat)
    (hfz : rtx.freeze = false) (hl : l < rtx.height) (hcl : rtx.current_line = (l : Int)) :
    ∃ img : List Vec4,
      updateImageTraced E g_scene rtx
        = some ([(l : Int)],
            { rtx with image := img, current_frame := nextFrame rtx l,
                       current_line := nextLine rtx l }) ∧
      img.length = rtx.width * rtx.height ∧
      ∀ i : Nat, img[i]? =
        if l * rtx.width ≤ i ∧ i < l * rtx.width + rtx.width then
          ((resize rtx.image (rtx.width * rtx.height))[i]?).map
            (pixelUpdate E g_scene rtx l ((i - l * rtx.width : Nat) : Int))
        else (resize rtx.image (rtx.width * rtx.height))[i]? := by
  have hrow : (l + 1) * rtx.width ≤ (resize rtx.image (rtx.width * rtx.height)).length := by
    rw [resize_length, Nat.mul_comm rtx.width]
    exact Nat.mul_le_mul_right _ hl
  obtain ⟨img, hrun, hlen, hpt⟩ := updateLine_spec E g_scene
    { rtx with image := resize rtx.image (rtx.width * rtx.height) } l hrow
  refine ⟨img, ?_, by rw [hlen, resize_length], ?_⟩
  · have hh : ¬ rtx.height = 0 := by omega
    have hy : Int.tmod rtx.current_line (rtx.height : Int) = (l : Int) := by
      rw [hcl]
      exact Int.tmod_eq_of_lt (by omega) (by omega)
    have e1 : updateImageTraced E g_scene rtx
        = (updateLine E g_scene
            { rtx with image := resize rtx.image (rtx.width * rtx.height) }
            (Int.tmod rtx.current_line (rtx.height : Int))).map
          fun rtx2 => ([Int.tmod rtx.current_line (rtx.height : Int)], advanceCounters rtx2) := by
      simp only [updateImageTraced, hfz, Bool.false_eq_true, if_false, hh]
    rw [e1, hy, hrun, Option.map_some']
    have e2 := advanceCounters_eq { rtx with image := img } l hl hcl
    exact congrArg (fun c => some ([(l : Int)], c)) e2
  · intro i
    rw [hpt i]
    have e : pixelUpdate E g_scene
        { rtx with image := resize rtx.image (rtx.width * rtx.height) } (l : Int)
          ((i - l * rtx.width : Nat) : Int)
        = pixelUpdate E g_scene rtx (l : Int) ((i - l * rtx.width : Nat) : Int) :=
      funext (pixelUpdate_image E g_scene rtx _ _ _)
    rw [e]

/-- C6 (freeze).  With `freeze` set, `updateImage` returns the context unchanged
(framebuffer, counters, `freeze` and configuration), whatever the framebuffer length. -/
theorem updateImage_frozen (E : Env) (g_scene : Scene) (rtx : RTContext)
    (h : rtx.freeze = true) : updateImage E g_scene rtx = some rtx := by
  simp [updateImage, updateImageTraced, h]

/-- Instance of C6: a frozen 2 by 4 context whose framebuffer has three entries. -/
theorem updateImage_frozen_witness :
    updateImage envSample sceneSample
        { rtxSample with freeze := true, image := [0, ⟨1, 2, 3, 4⟩, 0] }
      = some { rtxSample with freeze := true, image := [0, ⟨1, 2, 3, 4⟩, 0] } :=
  updateImage_frozen envSample sceneSample
    { rtxSample with freeze := true, image := [0, ⟨1, 2, 3, 4⟩, 0] } rfl

theorem pixelColor_state (E : Env) (g_scene : Scene) (cfg : RTContext) (img : List Vec4)
    (cf cl : Int) (x y : Int) :
    pixelColor E g_scene { cfg with image := img, current_frame := cf, current_line := cl } x y
      = pixelColor E g_scene cfg x y :=
  color_congr E g_scene
    { cfg with image := img, current_frame := cf, current_line := cl } cfg rfl rfl rfl _ _

theorem blendOld_zero : blendOld ⟨0, 0, 0, 0⟩ = ⟨0, 0, 0, 0⟩ := by
  unfold blendOld Vec4.clamp
  ext <;> norm_num

/-- Adding one sample to an accumulator that holds `N` samples; during frame `0` the
restart blend meets an accumulator with no sample and leaves it empty. -/
theorem pixelUpdate_accValue (E : Env) (g_scene : Scene) (cfg : RTContext) (img : List Vec4)
    (cf cl : Int) (x y : Nat) (N : Nat) (hcf : 0 ≤ cf) (h0 : cf = 0 → N = 0) :
    pixelUpdate E g_scene { cfg with image := img, current_frame := cf, current_line := cl }
        y x (accValue N (pixelColor E g_scene cfg x y))
      = accValue (N + 1) (pixelColor E g_scene cfg x y) := by
  unfold pixelUpdate
  rw [pixelColor_state E g_scene cfg img cf cl]
  by_cases h : cf ≤ 0
  · have hN : N = 0 := h0 (by omega)
    subst hN
    simp only [h, if_true, accValue]
    have : (⟨((0 : Nat) : ℚ) * (pixelColor E g_scene cfg x y).x,
        ((0 : Nat) : ℚ) * (pixelColor E g_scene cfg x y).y,
        ((0 : Nat) : ℚ) * (pixelColor E g_scene cfg x y).z, ((0 : Nat) : ℚ)⟩ : Vec4)
        = ⟨0, 0, 0, 0⟩ := by
      ext <;> simp
    rw [this, blendOld_zero]
    ext <;> norm_num [Vec4.ofVec3]
  · simp only [h, if_false, accValue]
    ext <;> simp [Vec4.ofVec3] <;> ring

theorem count_snoc_self (tr : List Int) (l : Int) :
    (tr ++ [l]).count l = tr.count l + 1 := by
  simp [List.count_append]

theorem count_snoc_ne (tr : List Int) (l y : Int) (h : l ≠ y) :
    (tr ++ [l]).count y = tr.count y := by
  simp [List.count_append, List.count_singleton, h]

/-- The scanline of a pixel index: index `y * w + x` with `x < w` lies in the index
range of scanline `l` only when `y = l`. -/
theorem row_index_iff (w x y l : Nat) (hx : x < w) (hne : y ≠ l) :
    ¬ (l * w ≤ y * w + x ∧ y * w + x < l * w + w) := by
  rcases Nat.lt_or_gt_of_ne hne with h | h
  · have h1 : (y + 1) * w ≤ l * w := Nat.mul_le_mul_right w h
    have h2 : (y + 1) * w = y * w + w := by ring
    omega
  · have h1 : (l + 1) * w ≤ y * w := Nat.mul_le_mul_right w h
    have h2 : (l + 1) * w = l * w + w := by ring
    omega

/-- One `updateImage` call preserves the accumulation invariant and extends the trace
by the scanline it visited. -/
theorem runInv_step (E : Env) (g_scene : Scene) (cfg : RTContext) (tr : List Int)
    (rtx : RTContext) (hfz : cfg.freeze = false) (hm : 1 ≤ cfg.max_frames)
    (h : RunInv E g_scene cfg tr rtx) :
    ∃ (l : Int) (rtx2 : RTContext),
      updateImageTraced E g_scene rtx = some ([l], rtx2) ∧
      RunInv E g_scene cfg (tr ++ [l]) rtx2 := by
  obtain ⟨img, cf, l, rfl, hl, hcf, hun, hlen, hacc⟩ := h
  obtain ⟨img2, hstep, hlen2, hpt⟩ := updateImageTraced_step E g_scene
    { cfg with image := img, current_frame := cf, current_line := (l : Int) } l hfz hl rfl
  simp only at hpt hlen2
  rw [resize_self img _ hlen] at hpt
  refine ⟨(l : Int), _, hstep, ?_⟩
  unfold RunInv
  refine ⟨img2,
    nextFrame { cfg with image := img, current_frame := cf, current_line := (l : Int) } l,
    (if cf < cfg.max_frames then (if cfg.height ≤ l + 1 then 0 else l + 1) else l), ?_, ?_, ?_,
    ?_, hlen2, ?_⟩
  · have e : nextLine { cfg with image := img, current_frame := cf, current_line := (l : Int) } l
        = ((if cf < cfg.max_frames then (if cfg.height ≤ l + 1 then 0 else l + 1) else l : Nat)
            : Int) := by
      simp only [nextLine]
      split_ifs <;> simp
    rw [← e]
  · split_ifs <;> omega
  · simp only [nextFrame]
    split_ifs <;> omega
  · intro hnf y hy
    simp only [nextFrame] at hnf
    have hc0 : cf = 0 := by
      split_ifs at hnf <;> omega
    have hlt : cf < cfg.max_frames := by omega
    have hnw : ¬ cfg.height ≤ l + 1 := by
      intro hw
      rw [if_pos ⟨hlt, hw⟩] at hnf
      omega
    rw [if_pos hlt, if_neg hnw] at hy
    rw [count_snoc_ne tr l y (by omega)]
    exact hun hc0 y (by omega)
  · intro x y hx hy
    rw [hpt]
    by_cases hyl : y = l
    · subst hyl
      rw [if_pos (by omega), hacc x y hx hy, Option.map_some', Nat.add_sub_cancel_left,
        pixelUpdate_accValue E g_scene cfg img cf y x y _ hcf (fun h0 => hun h0 y (le_refl _)),
        count_snoc_self]
    · rw [if_neg (row_index_iff cfg.width x y l hx hyl), hacc x y hx hy,
        count_snoc_ne tr l y (by omega)]

/-- Any number of `updateImage` calls from a state satisfying the accumulation invariant
succeeds and ends in a state satisfying it for the extended trace. -/
theorem runInv_run (E : Env) (g_scene : Scene) (cfg : RTContext) (hfz : cfg.freeze = false)
    (hm : 1 ≤ cfg.max_frames) (n : Nat) :
    ∀ (tr : List Int) (rtx : RTContext), RunInv E g_scene cfg tr rtx →
      ∃ (tr2 : List Int) (rtx2 : RTContext),
        runUpdates E g_scene n rtx = some (tr2, rtx2) ∧
        RunInv E g_scene cfg (tr ++ tr2) rtx2 := by
  induction n with
  | zero =>
    intro tr rtx h
    exact ⟨[], rtx, rfl, by simpa using h⟩
  | succ n ih =>
    intro tr rtx h
    obtain ⟨l, rtx1, hstep, h1⟩ := runInv_step E g_scene cfg tr rtx hfz hm h
    obtain ⟨tr2, rtx2, hrun, h2⟩ := ih (tr ++ [l]) rtx1 h1
    refine ⟨[l] ++ tr2, rtx2, ?_, ?_⟩
    · simp only [runUpdates, hstep, Option.some_bind, hrun, Option.map_some']
    · simpa [List.append_assoc] using h2

/-- The state produced by `resetImage` satisfies the accumulation invariant with the
empty trace. -/
theorem runInv_resetImage (E : Env) (g_scene : Scene) (rtx : RTContext)
    (hh : 0 < rtx.height) : RunInv E g_scene (resetImage rtx) [] (resetImage rtx) := by
  refine ⟨resize [] (rtx.width * rtx.height), 0, 0, rfl, hh, le_refl _, ?_, ?_, ?_⟩
  · intro _ y _
    rfl
  · exact resize_length _ _
  · intro x y hx hy
    have hx2 : x < rtx.width := hx
    have hy2 : y < rtx.height := hy
    have hlt : y * rtx.width + x < rtx.width * rtx.height := by
      have h1 : (y + 1) * rtx.width ≤ rtx.height * rtx.width := Nat.mul_le_mul_right _ hy
      have h2 : (y + 1) * rtx.width = y * rtx.width + rtx.width := by ring
      have h3 : rtx.height * rtx.width = rtx.width * rtx.height := Nat.mul_comm _ _
      omega
    show (resize [] (rtx.width * rtx.height))[y * rtx.width + x]? = _
    simp only [resize, List.take_nil, List.nil_append, List.length_nil, Nat.sub_zero,
      List.getElem?_replicate, if_pos hlt, List.count_nil, accValue]
    congr 1
    ext <;> simp

/-- Accumulation in exact arithmetic.  Start from `resetImage` with `max_frames >= 1` and
a fixed scene and configuration, and make any number `n` of `updateImage` calls.  When
the height is positive the calls succeed; and in the state they reach, every pixel
`(x, y)`, visited `N` times, holds `alpha = N` and `rgb = N * c`, where `c` is the colour
`color` returns for the pixel's ray, so that `rgb / alpha = c` for `N >= 1`.  The
additions are exact here; the rounding of the binary32 additions of the program is not
part of this statement. -/
theorem accumulation_round_trip (E : Env) (g_scene : Scene) (rtx : RTContext)
    (hm : 1 ≤ rtx.max_frames) (n : Nat) :
    (0 < rtx.height →
      ∃ p : List Int × RTContext, runUpdates E g_scene n (resetImage rtx) = some p) ∧
    ∀ (tr : List Int) (rtx2 : RTContext),
      runUpdates E g_scene n (resetImage rtx) = some (tr, rtx2) →
      ∀ x y : Nat, x < rtx.width → y < rtx.height →
        ∃ px : Vec4, rtx2.image[y * rtx.width + x]? = some px ∧
          px.w = (tr.count (y : Int) : ℚ) ∧
          px.xyz = (tr.count (y : Int) : ℚ) * pixelColor E g_scene rtx x y ∧
          (1 ≤ tr.count (y : Int) → (px / px.w).xyz = pixelColor E g_scene rtx x y) := by
  have key : 0 < rtx.height → ∃ (tr2 : List Int) (rtx2 : RTContext),
      runUpdates E g_scene n (resetImage rtx) = some (tr2, rtx2) ∧
      RunInv E g_scene (resetImage rtx) ([] ++ tr2) rtx2 := fun hh =>
    runInv_run E g_scene (resetImage rtx) rfl hm n [] (resetImage rtx)
      (runInv_resetImage E g_scene rtx hh)
  refine ⟨fun hh => ?_, ?_⟩
  · obtain ⟨tr2, rtx2, hrun, -⟩ := key hh
    exact ⟨_, hrun⟩
  · intro tr rtx2 hrun x y hx hy
    obtain ⟨tr2, rtx3, hrun2, img, cf, l, hst, -, -, -, -, hacc⟩ := key (by omega)
    rw [hrun] at hrun2
    cases hrun2
    have hc : pixelColor E g_scene (resetImage rtx) x y = pixelColor E g_scene rtx x y :=
      color_congr E g_scene (resetImage rtx) rtx rfl rfl rfl _ _
    have hval := hacc x y hx hy
    rw [hc, List.nil_append] at hval
    refine ⟨accValue (tr.count (y : Int)) (pixelColor E g_scene rtx x y), ?_, rfl, ?_, ?_⟩
    · rw [hst]
      exact hval
    · ext <;> simp [accValue, Vec4.xyz]
    · intro hN
      have hne : ((tr.count (y : Int) : Nat) : ℚ) ≠ 0 := by
        have : 0 < tr.count (y : Int) := hN
        exact_mod_cast this.ne'
      ext <;> simp [accValue, Vec4.xyz] <;> field_simp

/-- Accumulation in exact arithmetic over five `updateImage` calls on the 2 by 4 sample
context (`max_frames = 3`). -/
theorem accumulation_round_trip_witness :
    (0 < rtxSample.height →
      ∃ p : List Int × RTContext,
        runUpdates envSample sceneSample 5 (resetImage rtxSample) = some p) ∧
    ∀ (tr : List Int) (rtx2 : RTContext),
      runUpdates envSample sceneSample 5 (resetImage rtxSample) = some (tr, rtx2) →
      ∀ x y : Nat, x < rtxSample.width → y < rtxSample.height →
        ∃ px : Vec4, rtx2.image[y * rtxSample.width + x]? = some px ∧
          px.w = (tr.count (y : Int) : ℚ) ∧
          px.xyz = (tr.count (y : Int) : ℚ) * pixelColor envSample sceneSample rtxSample x y ∧
          (1 ≤ tr.count (y : Int) →
            (px / px.w).xyz = pixelColor envSample sceneSample rtxSample x y) :=
  accumulation_round_trip envSample sceneSample rtxSample (by decide) 5

/-! ## Fresnel reflectance -/

theorem ratio_sq_le_one (p q : ℚ) (hp : 0 ≤ p) (hq : 0 < q) :
    0 ≤ (p - q) / (p + q) * ((p - q) / (p + q)) ∧
    (p - q) / (p + q) * ((p - q) / (p + q)) ≤ 1 := by
  have hd : 0 < p + q := by linarith
  have h1 : (p - q) / (p + q) ≤ 1 := by
    rw [div_le_one hd]
    linarith
  have h2 : -1 ≤ (p - q) / (p + q) := by
    rw [le_div_iff₀ hd]
    linarith
  constructor
  · exact mul_self_nonneg _
  · nlinarith

/-- The non-total-internal-reflection branch of `fresnel` with positive indices,
non-negative `cosi` and positive `cost`: both denominators are positive and the
reflectance lies in `[0, 1]`. -/
theorem fresnel_branch_range (etai etat cosi cost : ℚ) (hi : 0 < etai) (ht : 0 < etat)
    (hc : 0 ≤ cosi) (hk : 0 < cost) :
    0 < fresnelDenS etai etat cosi cost ∧ 0 < fresnelDenP etai etat cosi cost ∧
    0 ≤ (((etat * cosi) - (etai * cost)) / fresnelDenS etai etat cosi cost
          * (((etat * cosi) - (etai * cost)) / fresnelDenS etai etat cosi cost)
        + ((etai * cosi) - (etat * cost)) / fresnelDenP etai etat cosi cost
          * (((etai * cosi) - (etat * cost)) / fresnelDenP etai etat cosi cost)) / 2 ∧
    (((etat * cosi) - (etai * cost)) / fresnelDenS etai etat cosi cost
          * (((etat * cosi) - (etai * cost)) / fresnelDenS etai etat cosi cost)
        + ((etai * cosi) - (etat * cost)) / fresnelDenP etai etat cosi cost
          * (((etai * cosi) - (etat * cost)) / fresnelDenP etai etat cosi cost)) / 2 ≤ 1 := by
  have hs := ratio_sq_le_one (etat * cosi) (etai * cost) (mul_nonneg ht.le hc) (mul_pos hi hk)
  have hp := ratio_sq_le_one (etai * cosi) (etat * cost) (mul_nonneg hi.le hc) (mul_pos ht hk)
  unfold fresnelDenS fresnelDenP
  refine ⟨?_, ?_, ?_, ?_⟩
  · have := mul_nonneg ht.le hc
    have := mul_pos hi hk
    linarith
  · have := mul_nonneg hi.le hc
    have := mul_pos ht hk
    linarith
  · linarith [hs.1, hp.1]
  · linarith [hs.2, hp.2]

/-- The locals of `fresnel` for index of refraction 1.5: both indices are positive and
`sint` is non-negative. -/
theorem fresnelLocals_pos (E : Env) (I N : Vec3) (hs0 : ∀ x, 0 ≤ x → 0 ≤ E.sqrtf x) :
    0 < (fresnelLocals E I N 1.5).2.1 ∧ 0 < (fresnelLocals E I N 1.5).2.2.1 ∧
    0 ≤ (fresnelLocals E I N 1.5).2.2.2 := by
  unfold fresnelLocals
  simp only
  have hq := hs0 (max 0 (1 - min (max (-1) 1) (dot I N) * min (max (-1) 1) (dot I N)))
    (le_max_left _ _)
  by_cases h : min (max (-1 : ℚ) 1) (dot I N) > 0
  · simp only [h, if_true]
    refine ⟨by norm_num, by norm_num, ?_⟩
    exact mul_nonneg (by norm_num) hq
  · simp only [h, if_false]
    refine ⟨by norm_num, by norm_num, ?_⟩
    exact mul_nonneg (by norm_num) hq

/-- C7 (Fresnel range).  For every incident direction `I` and normal `N` (unit length
not required) and index of refraction 1.5, with a `sqrtf` that is non-negative on
non-negative arguments and positive on positive ones, the reflectance `kr` computed by
`fresnel` satisfies `0 <= kr <= 1`; hence the mix weights `kr` and `1 - kr` are both in
`[0, 1]` and sum to `1`; and outside total internal reflection the denominators of `Rs`
and `Rp` are non-zero. -/
theorem fresnel_range (E : Env) (I N : Vec3) (hs0 : ∀ x, 0 ≤ x → 0 ≤ E.sqrtf x)
    (hs1 : ∀ x, 0 < x → 0 < E.sqrtf x) :
    (0 ≤ fresnel E I N 1.5 ∧ fresnel E I N 1.5 ≤ 1) ∧
    (0 ≤ 1 - fresnel E I N 1.5 ∧ 1 - fresnel E I N 1.5 ≤ 1) ∧
    fresnel E I N 1.5 + (1 - fresnel E I N 1.5) = 1 ∧
    (¬ (fresnelLocals E I N 1.5).2.2.2 ≥ 1 →
      fresnelDenS (fresnelLocals E I N 1.5).2.1 (fresnelLocals E I N 1.5).2.2.1
          |(fresnelLocals E I N 1.5).1|
          (E.sqrtf (max 0 (1 - (fresnelLocals E I N 1.5).2.2.2
            * (fresnelLocals E I N 1.5).2.2.2))) ≠ 0 ∧
      fresnelDenP (fresnelLocals E I N 1.5).2.1 (fresnelLocals E I N 1.5).2.2.1
          |(fresnelLocals E I N 1.5).1|
          (E.sqrtf (max 0 (1 - (fresnelLocals E I N 1.5).2.2.2
            * (fresnelLocals E I N 1.5).2.2.2))) ≠ 0) := by
  obtain ⟨hi, ht, hsin⟩ := fresnelLocals_pos E I N hs0
  have hbranch : ¬ (fresnelLocals E I N 1.5).2.2.2 ≥ 1 →
      0 < E.sqrtf (max 0 (1 - (fresnelLocals E I N 1.5).2.2.2
            * (fresnelLocals E I N 1.5).2.2.2)) := by
    intro hlt
    apply hs1
    have h1 : (fresnelLocals E I N 1.5).2.2.2 < 1 := not_le.1 hlt
    have : 0 < 1 - (fresnelLocals E I N 1.5).2.2.2 * (fresnelLocals E I N 1.5).2.2.2 := by
      nlinarith
    exact lt_max_of_lt_right this
  have hkr : 0 ≤ fresnel E I N 1.5 ∧ fresnel E I N 1.5 ≤ 1 := by
    unfold fresnel
    simp only
    by_cases hge : (fresnelLocals E I N 1.5).2.2.2 ≥ 1
    · simp only [hge, if_true]
      norm_num
    · simp only [hge, if_false]
      obtain ⟨-, -, h3, h4⟩ := fresnel_branch_range _ _ _ _ hi ht
        (abs_nonneg (fresnelLocals E I N 1.5).1) (hbranch hge)
      exact ⟨h3, h4⟩
  refine ⟨hkr, ⟨by linarith [hkr.2], by linarith [hkr.1]⟩, by ring, ?_⟩
  intro hlt
  obtain ⟨h1, h2, -, -⟩ := fresnel_branch_range _ _ _ _ hi ht
    (abs_nonneg (fresnelLocals E I N 1.5).1) (hbranch hlt)
  exact ⟨h1.ne', h2.ne'⟩

theorem sqrtSample_nonneg (x : ℚ) (_h : 0 ≤ x) : 0 ≤ sqrtSample x := by
  unfold sqrtSample
  split_ifs <;> linarith

theorem sqrtSample_pos (x : ℚ) (h : 0 < x) : 0 < sqrtSample x := by
  unfold sqrtSample
  rw [if_neg (not_le.2 h)]
  linarith

/-- Instance of C7 with the sample `sqrtf`, an incident direction that is not of unit
length and the normal `(0, 1, 0)`; there the reflectance is `1/25`. -/
theorem fresnel_range_witness :
    ((∀ x, 0 ≤ x → 0 ≤ envSample.sqrtf x) ∧ (∀ x, 0 < x → 0 < envSample.sqrtf x)) ∧
    fresnel envSample ⟨1, -1, 0⟩ ⟨0, 1, 0⟩ 1.5 = 1 / 25 ∧
    ((0 ≤ fresnel envSample ⟨1, -1, 0⟩ ⟨0, 1, 0⟩ 1.5 ∧
        fresnel envSample ⟨1, -1, 0⟩ ⟨0, 1, 0⟩ 1.5 ≤ 1) ∧
      (0 ≤ 1 - fresnel envSample ⟨1, -1, 0⟩ ⟨0, 1, 0⟩ 1.5 ∧
        1 - fresnel envSample ⟨1, -1, 0⟩ ⟨0, 1, 0⟩ 1.5 ≤ 1) ∧
      fresnel envSample ⟨1, -1, 0⟩ ⟨0, 1, 0⟩ 1.5
        + (1 - fresnel envSample ⟨1, -1, 0⟩ ⟨0, 1, 0⟩ 1.5) = 1 ∧
      (¬ (fresnelLocals envSample ⟨1, -1, 0⟩ ⟨0, 1, 0⟩ 1.5).2.2.2 ≥ 1 →
        fresnelDenS (fresnelLocals envSample ⟨1, -1, 0⟩ ⟨0, 1, 0⟩ 1.5).2.1
            (fresnelLocals envSample ⟨1, -1, 0⟩ ⟨0, 1, 0⟩ 1.5).2.2.1
            |(fresnelLocals envSample ⟨1, -1, 0⟩ ⟨0, 1, 0⟩ 1.5).1|
            (envSample.sqrtf (max 0 (1 - (fresnelLocals envSample ⟨1, -1, 0⟩ ⟨0, 1, 0⟩ 1.5).2.2.2
              * (fresnelLocals envSample ⟨1, -1, 0⟩ ⟨0, 1, 0⟩ 1.5).2.2.2))) ≠ 0 ∧
        fresnelDenP (fresnelLocals envSample ⟨1, -1, 0⟩ ⟨0, 1, 0⟩ 1.5).2.1
            (fresnelLocals envSample ⟨1, -1, 0⟩ ⟨0, 1, 0⟩ 1.5).2.2.1
            |(fresnelLocals envSample ⟨1, -1, 0⟩ ⟨0, 1, 0⟩ 1.5).1|
            (envSample.sqrtf (max 0 (1 - (fresnelLocals envSample ⟨1, -1, 0⟩ ⟨0, 1, 0⟩ 1.5).2.2.2
              * (fresnelLocals envSample ⟨1, -1, 0⟩ ⟨0, 1, 0⟩ 1.5).2.2.2))) ≠ 0)) :=
  ⟨⟨sqrtSample_nonneg, sqrtSample_pos⟩,
    by norm_num [fresnel, fresnelLocals, fresnelDenS, fresnelDenP, dot, envSample, sqrtSample],
    fresnel_range envSample ⟨1, -1, 0⟩ ⟨0, 1, 0⟩ sqrtSample_nonneg sqrtSample_pos⟩

/-! ## Sky gradient -/

/-- C8 (sky gradient boundary).  For `max_bounces >= 0` and a ray that hits nothing,
`color` returns `(1-t)*ground_color + t*sky_color` with
`t = 0.5*(y of the normalized direction + 1)`; with `sqrtf(1) = 1` this is exactly
`ground_color` for the direction `(0,-1,0)` and exactly `sky_color` for `(0,1,0)`. -/
theorem sky_gradient (E : Env) (g_scene : Scene) (rtx : RTContext) (r : Ray)
    (max_bounces : Int) (hmb : 0 ≤ max_bounces)
    (hno : (hit_world g_scene r 0 9999 E.uninit_rec).1 = false) :
    color E g_scene rtx r max_bounces
      = ((1 : ℚ) - 0.5 * ((normalize E r.direction).y + 1)) * rtx.ground_color
        + ((0.5 : ℚ) * ((normalize E r.direction).y + 1)) * rtx.sky_color ∧
    (E.sqrtf 1 = 1 → r.direction = ⟨0, -1, 0⟩ →
      color E g_scene rtx r max_bounces = rtx.ground_color) ∧
    (E.sqrtf 1 = 1 → r.direction = ⟨0, 1, 0⟩ →
      color E g_scene rtx r max_bounces = rtx.sky_color) := by
  have hcol : color E g_scene rtx r max_bounces = skyColor E rtx r := by
    rw [color]
    simp only [not_lt.2 hmb, dite_false, shade, hno, Bool.false_eq_true, if_false]
  rw [hcol]
  refine ⟨?_, ?_, ?_⟩
  · simp only [skyColor]
    norm_num
  · intro hs hd
    simp only [skyColor, normalize, hd, dot]
    ext <;> norm_num [hs]
  · intro hs hd
    simp only [skyColor, normalize, hd, dot]
    ext <;> norm_num [hs]

/-- Instance of C8: a ray pointing straight down in the scene without primitives, at
`max_bounces = 0`, has exactly the ground colour. -/
theorem sky_gradient_witness :
    color envSample sceneEmpty rtxSample ⟨0, ⟨0, -1, 0⟩⟩ 0 = rtxSample.ground_color :=
  (sky_gradient envSample sceneEmpty rtxSample ⟨0, ⟨0, -1, 0⟩⟩ 0 (by decide) rfl).2.1
    (by norm_num [envSample, sqrtSample]) rfl

/-! ## Dielectric shading -/

/-- The value `color` computes for a ray that hits the scene, with `max_bounces >= 0` and
`show_normals` off (lines 141-162). -/
theorem color_hit_eq (E : Env) (g_scene : Scene) (rtx : RTContext) (r : Ray)
    (max_bounces : Int) (hmb : 0 ≤ max_bounces)
    (hhit : (hit_world g_scene r 0 9999 E.uninit_rec).1 = true)
    (hsn : rtx.show_normals = false) :
    color E g_scene rtx r max_bounces
      = E.uninit_vec3
        + color E g_scene rtx (reflectionRay E r (shadeRecord E g_scene r)) (max_bounces - 1)
            * fresnel E r.direction (shadeRecord E g_scene r).normal 1.5
        + (if fresnel E r.direction (shadeRecord E g_scene r).normal 1.5 < 1 then
              color E g_scene rtx (refractionRay E r (shadeRecord E g_scene r) 1.5)
                (max_bounces - 1)
            else Vec3.splat 0)
            * (1 - fresnel E r.direction (shadeRecord E g_scene r).normal 1.5) := by
  rw [color]
  simp only [not_lt.2 hmb, dite_false, shade, hhit, if_true, hsn, Bool.false_eq_true, if_false,
    Bool.not_true, shadeRecord]

/-- The refraction direction used by `color` is computed by `refract` with the index
`glm::normalize(ior)`, which is `1` for every non-negative `ior`. -/
theorem refractionRay_direction (E : Env) (r : Ray) (hit_rec : HitRecord) (ior : ℚ)
    (h : 0 ≤ ior) :
    (refractionRay E r hit_rec ior).direction = refract E r.direction hit_rec.normal 1 := by
  simp only [refractionRay, Ray.direction, normalizeScalar, not_lt.2 h, if_false]

/-- C9 (dielectric mix).  On a build whose default constructor zero-initialises the
local `hitColor`, for every ray that hits the scene with `max_bounces >= 0` and
`show_normals` off, `color` returns exactly `reflection*kr + refraction*(1-kr)`, where
`kr` is the Fresnel reflectance, `reflection` is `color` of the reflection ray at
`max_bounces - 1` and `refraction` is `color` of the refraction ray at `max_bounces - 1`
(black when `kr` is not below `1`). -/
theorem color_dielectric_mix (E : Env) (g_scene : Scene) (rtx : RTContext) (r : Ray)
    (max_bounces : Int) (hu : E.uninit_vec3 = ⟨0, 0, 0⟩) (hmb : 0 ≤ max_bounces)
    (hhit : (hit_world g_scene r 0 9999 E.uninit_rec).1 = true)
    (hsn : rtx.show_normals = false) :
    color E g_scene rtx r max_bounces
      = color E g_scene rtx (reflectionRay E r (shadeRecord E g_scene r)) (max_bounces - 1)
            * fresnel E r.direction (shadeRecord E g_scene r).normal 1.5
        + (if fresnel E r.direction (shadeRecord E g_scene r).normal 1.5 < 1 then
              color E g_scene rtx (refractionRay E r (shadeRecord E g_scene r) 1.5)
                (max_bounces - 1)
            else ⟨0, 0, 0⟩)
            * (1 - fresnel E r.direction (shadeRecord E g_scene r).normal 1.5) := by
  rw [color_hit_eq E g_scene rtx r max_bounces hmb hhit hsn, hu]
  ext <;> simp [Vec3.splat]

/-- Instance of C9: the oblique ray on the sample scene at `max_bounces = 0`, in the
sample environment (zero-initialised `hitColor`). -/
theorem color_dielectric_mix_witness :
    (hit_world sceneSample rayOblique 0 9999 envSample.uninit_rec).1 = true ∧
    color envSample sceneSample rtxSample rayOblique 0
      = color envSample sceneSample rtxSample
            (reflectionRay envSample rayOblique (shadeRecord envSample sceneSample rayOblique))
            (0 - 1)
          * fresnel envSample rayOblique.direction
              (shadeRecord envSample sceneSample rayOblique).normal 1.5
        + (if fresnel envSample rayOblique.direction
                (shadeRecord envSample sceneSample rayOblique).normal 1.5 < 1 then
              color envSample sceneSample rtxSample
                (refractionRay envSample rayOblique
                  (shadeRecord envSample sceneSample rayOblique) 1.5) (0 - 1)
            else ⟨0, 0, 0⟩)
          * (1 - fresnel envSample rayOblique.direction
              (shadeRecord envSample sceneSample rayOblique).normal 1.5) :=
  have hhit : (hit_world sceneSample rayOblique 0 9999 envSample.uninit_rec).1 = true := by
    norm_num [hit_world, hitStep, sceneSample, Hitable.single]
  ⟨hhit, color_dielectric_mix envSample sceneSample rtxSample rayOblique 0 rfl (le_refl _)
    hhit rfl⟩

/-- C10 (refraction index), evaluation at a failing input.  For the oblique ray on the
sample scene the reflectance is below `1`, so `color` traces a refraction ray; its
direction is `refract` with index `1`, here `(1, 0, -1)`, whereas `refract` with the
index `1.5` passed to `fresnel` gives `(2/3, 0, -1)`. -/
theorem refraction_ior_mismatch :
    fresnel envSample rayOblique.direction
        (shadeRecord envSample sceneSample rayOblique).normal 1.5 < 1 ∧
    (refractionRay envSample rayOblique (shadeRecord envSample sceneSample rayOblique) 1.5).direction
      = refract envSample rayOblique.direction
          (shadeRecord envSample sceneSample rayOblique).normal 1 ∧
    (refractionRay envSample rayOblique (shadeRecord envSample sceneSample rayOblique) 1.5).direction
      = ⟨1, 0, -1⟩ ∧
    refract envSample rayOblique.direction
        (shadeRecord envSample sceneSample rayOblique).normal 1.5 = ⟨2 / 3, 0, -1⟩ := by
  have hrec : shadeRecord envSample sceneSample rayOblique = ⟨1, ⟨0, 0, -1⟩, ⟨0, 0, 1⟩⟩ := by
    norm_num [shadeRecord, hit_world, hitStep, sceneSample, Hitable.single, normalize, dot,
      envSample, sqrtSample]
    ext <;> norm_num
  rw [hrec]
  refine ⟨?_, ?_, ?_, ?_⟩
  · norm_num [fresnel, fresnelLocals, fresnelDenS, fresnelDenP, dot, envSample, sqrtSample,
      rayOblique, Ray.direction]
  · exact refractionRay_direction _ _ _ _ (by norm_num)
  · rw [refractionRay_direction _ _ _ _ (by norm_num)]
    norm_num [refract, dot, envSample, sqrtSample, rayOblique, Ray.direction]
    ext <;> norm_num
  · norm_num [refract, dot, envSample, sqrtSample, rayOblique, Ray.direction]
    ext <;> norm_num

/-! ## Degenerate refraction -/

/-- The function `refract` in terms of its discriminant. -/
theorem refract_eq_of_discriminant (E : Env) (I N : Vec3) (ior : ℚ) :
    (refractDiscriminant I N ior < 0 → refract E I N ior = ⟨0, 0, 0⟩) ∧
    (¬ refractDiscriminant I N ior < 0 → ¬ dot I N < 0 →
      refract E I N ior
        = (ior / 1) * I
          + ((ior / 1) * min (max (-1) 1) (dot I N)
              - E.sqrtf (refractDiscriminant I N ior)) * (-N)) := by
  unfold refract refractDiscriminant
  by_cases hc : min (max (-1 : ℚ) 1) (dot I N) < 0
  · simp only [hc, if_true]
    refine ⟨fun hk => ?_, fun _ hd => ?_⟩
    · simp only [hk, if_true, Vec3.splat]
    · exfalso
      have : ¬ min (max (-1 : ℚ) 1) (dot I N) < 0 := by
        rw [not_lt]
        exact le_min (by norm_num) (not_lt.1 hd)
      exact this hc
  · simp only [hc, if_false]
    refine ⟨fun hk => ?_, fun hk _ => ?_⟩
    · simp only [hk, if_true, Vec3.splat]
    · simp only [hk, if_false]

/-- C11 (degenerate refraction), counterexample.  For `I = (1, 0, 0)`, `N = (0, 1, 0)`
and `ior = 1` the discriminant `k` is exactly zero and `refract` returns `(1, 0, 0)`,
not the zero vector. -/
theorem refract_zero_discriminant_nonzero :
    refractDiscriminant ⟨1, 0, 0⟩ ⟨0, 1, 0⟩ 1 = 0 ∧
    refract envSample ⟨1, 0, 0⟩ ⟨0, 1, 0⟩ 1 = ⟨1, 0, 0⟩ ∧
    refract envSample ⟨1, 0, 0⟩ ⟨0, 1, 0⟩ 1 ≠ ⟨0, 0, 0⟩ := by
  have hk : refractDiscriminant ⟨1, 0, 0⟩ ⟨0, 1, 0⟩ 1 = 0 := by
    norm_num [refractDiscriminant, dot]
  have hr : refract envSample ⟨1, 0, 0⟩ ⟨0, 1, 0⟩ 1 = ⟨1, 0, 0⟩ := by
    norm_num [refract, dot, envSample, sqrtSample]
    ext <;> norm_num
  refine ⟨hk, hr, ?_⟩
  rw [hr]
  intro h
  have := congrArg Vec3.x h
  norm_num at this

/-- The zero branch of `refract`: the result is the zero vector whenever the discriminant
is negative. -/
theorem refract_negative_discriminant (E : Env) (I N : Vec3) (ior : ℚ)
    (h : refractDiscriminant I N ior < 0) : refract E I N ior = ⟨0, 0, 0⟩ :=
  (refract_eq_of_discriminant E I N ior).1 h

/-- The zero branch of `refract` at `I = (1, 0, 0)`, `N = (0, 1, 0)`, `ior = 2`, where
`k = -3`. -/
theorem refract_negative_discriminant_witness :
    refractDiscriminant ⟨1, 0, 0⟩ ⟨0, 1, 0⟩ 2 = -3 ∧
    refract envSample ⟨1, 0, 0⟩ ⟨0, 1, 0⟩ 2 = ⟨0, 0, 0⟩ :=
  ⟨by norm_num [refractDiscriminant, dot],
    refract_negative_discriminant envSample ⟨1, 0, 0⟩ ⟨0, 1, 0⟩ 2
      (by norm_num [refractDiscriminant, dot])⟩

/-- C11 (degenerate refraction), amended.  For every `I`, `N` and `ior`, with
`k = 1 - eta^2 * (1 - cosi^2)` the discriminant of `refract`: `refract` returns the zero
vector whenever `k` is negative, and whenever `k` is zero or positive it returns
`eta*I + (eta*cosi - sqrtf(k))*n`; so at `k = 0` the result is
`eta*I + (eta*cosi - sqrtf(0))*n`, not the zero vector in general. -/
theorem refract_discriminant_cases (E : Env) (I N : Vec3) (ior : ℚ) :
    refractDiscriminant I N ior
      = 1 - (refractLocals I N ior).2.1 * (refractLocals I N ior).2.1
          * (1 - (refractLocals I N ior).1 * (refractLocals I N ior).1) ∧
    (refractDiscriminant I N ior < 0 → refract E I N ior = ⟨0, 0, 0⟩) ∧
    (0 ≤ refractDiscriminant I N ior →
      refract E I N ior
        = (refractLocals I N ior).2.1 * I
          + ((refractLocals I N ior).2.1 * (refractLocals I N ior).1
              - E.sqrtf (refractDiscriminant I N ior)) * (refractLocals I N ior).2.2) ∧
    (refractDiscriminant I N ior = 0 →
      refract E I N ior
        = (refractLocals I N ior).2.1 * I
          + ((refractLocals I N ior).2.1 * (refractLocals I N ior).1
              - E.sqrtf 0) * (refractLocals I N ior).2.2) := by
  have hpos : 0 ≤ refractDiscriminant I N ior →
      refract E I N ior
        = (refractLocals I N ior).2.1 * I
          + ((refractLocals I N ior).2.1 * (refractLocals I N ior).1
              - E.sqrtf (refractDiscriminant I N ior)) * (refractLocals I N ior).2.2 := by
    unfold refract refractDiscriminant refractLocals
    by_cases hc : min (max (-1 : ℚ) 1) (dot I N) < 0
    · simp only [hc, if_true]
      intro hk
      rw [if_neg (not_lt.2 hk)]
    · simp only [hc, if_false]
      intro hk
      rw [if_neg (not_lt.2 hk)]
  refine ⟨?_, ?_, hpos, ?_⟩
  · unfold refractDiscriminant refractLocals
    by_cases hc : min (max (-1 : ℚ) 1) (dot I N) < 0
    · simp only [hc, if_true]
    · simp only [hc, if_false]
  · intro hk
    unfold refract refractDiscriminant at *
    by_cases hc : min (max (-1 : ℚ) 1) (dot I N) < 0
    · simp only [hc, if_true] at hk ⊢
      simp only [hk, if_true, Vec3.splat]
    · simp only [hc, if_false] at hk ⊢
      simp only [hk, if_true, Vec3.splat]
  · intro hk
    have h := hpos (le_of_eq hk.symm)
    rw [hk] at h
    exact h

/-- Instance of the amended C11 for `I = (1, 0, 0)`, `N = (0, 1, 0)`: with `ior = 2`
the discriminant is `-3` and the result is the zero vector; with `ior = 1` the
discriminant is `0` and the result is `(1, 0, 0)`. -/
theorem refract_discriminant_cases_witness :
    refractDiscriminant ⟨1, 0, 0⟩ ⟨0, 1, 0⟩ 2 = -3 ∧
    refract envSample ⟨1, 0, 0⟩ ⟨0, 1, 0⟩ 2 = ⟨0, 0, 0⟩ ∧
    refractDiscriminant ⟨1, 0, 0⟩ ⟨0, 1, 0⟩ 1 = 0 ∧
    refract envSample ⟨1, 0, 0⟩ ⟨0, 1, 0⟩ 1
      = (refractLocals ⟨1, 0, 0⟩ ⟨0, 1, 0⟩ 1).2.1 * (⟨1, 0, 0⟩ : Vec3)
        + ((refractLocals ⟨1, 0, 0⟩ ⟨0, 1, 0⟩ 1).2.1 * (refractLocals ⟨1, 0, 0⟩ ⟨0, 1, 0⟩ 1).1
            - envSample.sqrtf 0) * (refractLocals ⟨1, 0, 0⟩ ⟨0, 1, 0⟩ 1).2.2 :=
  ⟨by norm_num [refractDiscriminant, dot],
    (refract_discriminant_cases envSample ⟨1, 0, 0⟩ ⟨0, 1, 0⟩ 2).2.1
      (by norm_num [refractDiscriminant, dot]),
    by norm_num [refractDiscriminant, dot],
    (refract_discriminant_cases envSample ⟨1, 0, 0⟩ ⟨0, 1, 0⟩ 1).2.2.2
      (by norm_num [refractDiscriminant, dot])⟩

/-! ## `resetImage` -/

theorem foldl_hitStep_hit (r : Ray) (t_min : ℚ) (l : List Hitable) (st : HitState)
    (h : st.hit_anything = true) : (l.foldl (hitStep r t_min) st).hit_anything = true := by
  induction l generalizing st with
  | nil => exact h
  | cons q l ih =>
    apply ih
    unfold hitStep
    cases q.hit r t_min st.closest_so_far with
    | none => exact h
    | some _ => rfl

/-- The loop of `hit_world` from a state in which nothing has been hit yet: it reports
a hit exactly when some primitive hits for the original range, and otherwise leaves the
state as it was. -/
theorem foldl_hitStep_none (r : Ray) (t_min t_max : ℚ) (l : List Hitable) (st : HitState)
    (h0 : st.hit_anything = false) (hc : st.closest_so_far = t_max) :
    ((l.foldl (hitStep r t_min) st).hit_anything = true
      ↔ ∃ p ∈ l, ∃ hr, p.hit r t_min t_max = some hr) ∧
    ((∀ p ∈ l, p.hit r t_min t_max = none) → l.foldl (hitStep r t_min) st = st) := by
  induction l generalizing st with
  | nil =>
    refine ⟨⟨fun h => ?_, fun ⟨p, hp, _⟩ => absurd hp (List.not_mem_nil p)⟩, fun _ => rfl⟩
    rw [List.foldl_nil, h0] at h
    cases h
  | cons q l ih =>
    rw [List.foldl_cons]
    cases hq : q.hit r t_min t_max with
    | none =>
      have hstep : hitStep r t_min st q = st := by
        unfold hitStep
        rw [hc, hq]
      rw [hstep]
      obtain ⟨ih1, ih2⟩ := ih st h0 hc
      refine ⟨⟨fun h => ?_, fun ⟨p, hp, hr, hhr⟩ => ?_⟩, fun hall => ?_⟩
      · obtain ⟨p, hp, hr, hhr⟩ := ih1.1 h
        exact ⟨p, List.mem_cons_of_mem q hp, hr, hhr⟩
      · rcases List.mem_cons.1 hp with rfl | hp
        · rw [hq] at hhr
          cases hhr
        · exact ih1.2 ⟨p, hp, hr, hhr⟩
      · exact ih2 (fun p hp => hall p (List.mem_cons_of_mem q hp))
    | some hr =>
      have hstep : (hitStep r t_min st q).hit_anything = true := by
        unfold hitStep
        rw [hc, hq]
      refine ⟨⟨fun _ => ⟨q, List.mem_cons_self q l, hr, hq⟩,
        fun _ => foldl_hitStep_hit r t_min l _ hstep⟩, fun hall => ?_⟩
      have := hall q (List.mem_cons_self q l)
      rw [hq] at this
      cases this

/-- C14 (no-hit characterisation).  For every scene, ray and range,
`hit_world(r, t_min, t_max)` reports a hit if and only if at least one primitive of the
scene (ground, a sphere, a box or a mesh triangle) reports a hit for
`hit(r, t_min, t_max)` with the original range; and when no primitive hits, the caller's
record is left unchanged.  The assumption that primitives answer inside the range they
are given is not needed. -/
theorem hit_world_hit_iff (g_scene : Scene) (r : Ray) (t_min t_max : ℚ) (rec_in : HitRecord) :
    ((hit_world g_scene r t_min t_max rec_in).1 = true
      ↔ ∃ p ∈ g_scene.prims, ∃ hr, p.hit r t_min t_max = some hr) ∧
    ((∀ p ∈ g_scene.prims, p.hit r t_min t_max = none) →
      hit_world g_scene r t_min t_max rec_in = (false, rec_in)) := by
  obtain ⟨h1, h2⟩ := foldl_hitStep_none r t_min t_max g_scene.prims
    ⟨false, t_max, rec_in⟩ rfl rfl
  rw [hit_world_eq_foldl]
  refine ⟨h1, fun hall => ?_⟩
  rw [h2 hall]

/-! ## Frame effect of `updateLine` and `updateImage` -/

/-- A non-frozen `updateImage` with positive height and non-negative cursor completes. -/
theorem updateImageTraced_defined (E : Env) (g_scene : Scene) (rtx : RTContext)
    (hfz : rtx.freeze = false) (hh : 0 < rtx.height) (hcl : 0 ≤ rtx.current_line) :
    ∃ img : List Vec4,
      updateImageTraced E g_scene rtx
        = some ([Int.tmod rtx.current_line (rtx.height : Int)],
            advanceCounters { rtx with image := img }) ∧
      img.length = rtx.width * rtx.height := by
  have hh0 : ¬ rtx.height = 0 := by omega
  have hy : Int.tmod rtx.current_line (rtx.height : Int)
      = ((rtx.current_line.toNat % rtx.height : Nat) : Int) := by
    rw [Int.tmod_eq_emod hcl (by omega)]
    have hnat : ((rtx.current_line.toNat : Nat) : Int) = rtx.current_line :=
      Int.toNat_of_nonneg hcl
    push_cast
    rw [hnat]
  have hlt : rtx.current_line.toNat % rtx.height < rtx.height := Nat.mod_lt _ hh
  have hrow : (rtx.current_line.toNat % rtx.height + 1) * rtx.width
      ≤ (resize rtx.image (rtx.width * rtx.height)).length := by
    rw [resize_length, Nat.mul_comm rtx.width]
    exact Nat.mul_le_mul_right _ hlt
  obtain ⟨img, hrun, hlen, -⟩ := updateLine_spec E g_scene
    { rtx with image := resize rtx.image (rtx.width * rtx.height) }
    (rtx.current_line.toNat % rtx.height) hrow
  refine ⟨img, ?_, by rw [hlen, resize_length]⟩
  unfold updateImageTraced
  rw [if_neg (by rw [hfz]; exact Bool.false_ne_true)]
  simp only [hh0, if_false]
  rw [hy, hrun, Option.map_some']

/-- Effect of the counter update of `updateImage` (lines 242-248) on the frame counter. -/
theorem advanceCounters_frame (rtx : RTContext) :
    (advanceCounters rtx).max_frames = rtx.max_frames ∧
    (advanceCounters rtx).height = rtx.height ∧
    (advanceCounters rtx).width = rtx.width ∧
    (advanceCounters rtx).image = rtx.image ∧
    (rtx.current_frame ≤ rtx.max_frames →
      (advanceCounters rtx).current_frame ≤ rtx.max_frames) ∧
    (rtx.current_frame = rtx.max_frames → advanceCounters rtx = rtx) := by
  unfold advanceCounters
  by_cases hc : rtx.current_frame < rtx.max_frames
  · rw [if_pos hc]
    by_cases hw : rtx.current_line + 1 ≥ (rtx.height : Int)
    · rw [if_pos hw]
      exact ⟨rfl, rfl, rfl, rfl, fun _ => Int.add_one_le_of_lt hc, fun h => by omega⟩
    · rw [if_neg hw]
      exact ⟨rfl, rfl, rfl, rfl, fun h => h, fun h => by omega⟩
  · rw [if_neg hc]
    exact ⟨rfl, rfl, rfl, rfl, fun h => h, fun _ => rfl⟩

/-- C17 (per-pixel independence of `updateLine`).  For a context whose framebuffer has
`width*height` entries and `0 <= y < height`, `updateLine(ctx, y)` completes and changes
only the image; entries outside scanline `y` keep their value; and the new value of
entry `y*width + x` is a function of its own old value and of the context without its
framebuffer (configuration and counters) and the scene. -/
theorem updateLine_independent (E : Env) (g_scene : Scene) (rtx : RTContext) (y : Nat)
    (hlen : rtx.image.length = rtx.width * rtx.height) (hy : y < rtx.height) :
    ∃ img : List Vec4,
      updateLine E g_scene rtx (y : Int) = some { rtx with image := img } ∧
      img.length = rtx.image.length ∧
      (∀ i : Nat, ¬ (y * rtx.width ≤ i ∧ i < y * rtx.width + rtx.width) →
        img[i]? = rtx.image[i]?) ∧
      (∀ x : Nat, x < rtx.width →
        img[y * rtx.width + x]? =
          (rtx.image[y * rtx.width + x]?).map
            (pixelUpdate E g_scene { rtx with image := [] } y x)) := by
  have hrow : (y + 1) * rtx.width ≤ rtx.image.length := by
    rw [hlen, Nat.mul_comm rtx.width]
    exact Nat.mul_le_mul_right _ hy
  obtain ⟨img, hrun, hl, hpt⟩ := updateLine_spec E g_scene rtx y hrow
  refine ⟨img, hrun, hl, fun i hi => ?_, fun x hx => ?_⟩
  · rw [hpt, if_neg hi]
  · rw [hpt, if_pos (by omega), Nat.add_sub_cancel_left]
    have e : pixelUpdate E g_scene { rtx with image := [] } (y : Int) (x : Int)
        = pixelUpdate E g_scene rtx (y : Int) (x : Int) :=
      funext (pixelUpdate_image E g_scene rtx [] _ _)
    rw [e]

/-- Instance of C17: scanline `1` of the 2 by 4 context whose accumulators hold
`(2, 4, 6, 2)`. -/
theorem updateLine_independent_witness :
    ∃ img : List Vec4,
      updateLine envSample sceneSample rtxBlend ((1 : Nat) : Int)
        = some { rtxBlend with image := img } ∧
      img.length = rtxBlend.image.length ∧
      (∀ i : Nat, ¬ (1 * rtxBlend.width ≤ i ∧ i < 1 * rtxBlend.width + rtxBlend.width) →
        img[i]? = rtxBlend.image[i]?) ∧
      (∀ x : Nat, x < rtxBlend.width →
        img[1 * rtxBlend.width + x]? =
          (rtxBlend.image[1 * rtxBlend.width + x]?).map
            (pixelUpdate envSample sceneSample { rtxBlend with image := [] }
              ((1 : Nat) : Int) x)) :=
  updateLine_independent envSample sceneSample rtxBlend 1 (by decide) (by decide)

/-- Indexing safety with unbounded integers.  For a context with `height > 0`,
`current_line >= 0` and `freeze` off, whatever the framebuffer length before the call:
the framebuffer has `width*height` entries after the resize, every index `y*width + x`
with `y = current_line % height` and `0 <= x < width` satisfies
`0 <= index < width*height`, and `updateImage` completes, that is, without out-of-range
access and without division by zero. -/
theorem framebuffer_index_safe (E : Env) (g_scene : Scene) (rtx : RTContext)
    (hh : 0 < rtx.height) (hcl : 0 ≤ rtx.current_line) (hfz : rtx.freeze = false) :
    (resize rtx.image (rtx.width * rtx.height)).length = rtx.width * rtx.height ∧
    (∀ x : Nat, x < rtx.width →
      0 ≤ Int.tmod rtx.current_line (rtx.height : Int) * (rtx.width : Int) + (x : Int) ∧
      Int.tmod rtx.current_line (rtx.height : Int) * (rtx.width : Int) + (x : Int)
        < ((rtx.width * rtx.height : Nat) : Int)) ∧
    ∃ rtx2 : RTContext, updateImage E g_scene rtx = some rtx2 ∧
      rtx2.image.length = rtx.width * rtx.height := by
  refine ⟨resize_length _ _, fun x hx => ?_, ?_⟩
  · have hy : Int.tmod rtx.current_line (rtx.height : Int)
        = ((rtx.current_line.toNat % rtx.height : Nat) : Int) := by
      rw [Int.tmod_eq_emod hcl (by omega)]
      have hnat : ((rtx.current_line.toNat : Nat) : Int) = rtx.current_line :=
        Int.toNat_of_nonneg hcl
      push_cast
      rw [hnat]
    have hlt : rtx.current_line.toNat % rtx.height < rtx.height := Nat.mod_lt _ hh
    have h1 : (rtx.current_line.toNat % rtx.height + 1) * rtx.width
        ≤ rtx.height * rtx.width := Nat.mul_le_mul_right _ hlt
    have h2 : (rtx.current_line.toNat % rtx.height + 1) * rtx.width
        = rtx.current_line.toNat % rtx.height * rtx.width + rtx.width := by ring
    have h3 : rtx.height * rtx.width = rtx.width * rtx.height := Nat.mul_comm _ _
    have hnat : rtx.current_line.toNat % rtx.height * rtx.width + x
        < rtx.width * rtx.height := by omega
    rw [hy]
    constructor
    · positivity
    · exact_mod_cast hnat
  · obtain ⟨img, hrun, hlen⟩ := updateImageTraced_defined E g_scene rtx hfz hh hcl
    obtain ⟨-, -, -, himg, -, -⟩ := advanceCounters_frame { rtx with image := img }
    refine ⟨advanceCounters { rtx with image := img }, ?_, ?_⟩
    · simp only [updateImage, hrun, Option.map_some']
    · rw [himg]
      exact hlen

/-- Indexing safety with unbounded integers on the 2 by 4 sample context with cursor `6`
and a framebuffer of three entries before the call. -/
theorem framebuffer_index_safe_witness :
    (resize [0, 0, 0] (2 * 4)).length = 2 * 4 ∧
    (∀ x : Nat, x < 2 →
      0 ≤ Int.tmod 6 ((4 : Nat) : Int) * ((2 : Nat) : Int) + (x : Int) ∧
      Int.tmod 6 ((4 : Nat) : Int) * ((2 : Nat) : Int) + (x : Int) < ((2 * 4 : Nat) : Int)) ∧
    ∃ rtx2 : RTContext,
      updateImage envSample sceneSample
          { rtxSample with current_line := 6, image := [0, 0, 0] } = some rtx2 ∧
      rtx2.image.length = 2 * 4 :=
  framebuffer_index_safe envSample sceneSample
    { rtxSample with current_line := 6, image := [0, 0, 0] } (by decide) (by decide) rfl

/-! ## Bias of the secondary rays -/

/-- Offset of the secondary ray origins from the hit point, measured along the normal:
it is `0.5 * dot(p, n)` up to the sign selected by `outside`, whatever the direction of
the normal relative to the position vector `p`. -/
theorem secondary_origin_offset (E : Env) (r : Ray) (hit_rec : HitRecord) (ior : ℚ) :
    dot ((reflectionRay E r hit_rec).origin - hit_rec.p) hit_rec.normal
      = (if glassOutside r hit_rec then 1 else -1) * (1 / 2 * dot hit_rec.p hit_rec.normal) ∧
    dot ((refractionRay E r hit_rec ior).origin - hit_rec.p) hit_rec.normal
      = (if glassOutside r hit_rec then -1 else 1) * (1 / 2 * dot hit_rec.p hit_rec.normal) := by
  unfold reflectionRay refractionRay glassBias Ray.origin dot
  cases glassOutside r hit_rec <;> constructor <;> simp <;> norm_num <;> ring

/-- C16 (bias direction), evaluation at a failing input.  The ray `raySide` meets the
sphere of centre `(1, 0, 0)` from outside at `p = (0.7, 0.4, 0)` with unit normal
`n = (-0.6, 0.8, 0)`; the reflection origin `p + 0.5*p` has
`dot(origin - p, n) = -1/20 < 0` and the refraction origin `p - 0.5*p` has
`dot(origin - p, n) = 1/20 > 0`: both are offset to the wrong side of the surface. -/
theorem bias_wrong_side :
    glassOutside raySide recSide = true ∧
    dot recSide.normal recSide.normal = 1 ∧
    recSide.p = raySide.A + recSide.t * raySide.B ∧
    (reflectionRay envSample raySide recSide).origin = recSide.p + (0.5 : ℚ) * recSide.p ∧
    (refractionRay envSample raySide recSide 1.5).origin = recSide.p - (0.5 : ℚ) * recSide.p ∧
    dot ((reflectionRay envSample raySide recSide).origin - recSide.p) recSide.normal
      = -1 / 20 ∧
    dot ((refractionRay envSample raySide recSide 1.5).origin - recSide.p) recSide.normal
      = 1 / 20 := by
  have hout : glassOutside raySide recSide = true := by
    norm_num [glassOutside, dot, raySide, recSide, Ray.direction]
  refine ⟨hout, ?_, ?_, ?_, ?_, ?_, ?_⟩
  · norm_num [dot, recSide]
  · ext <;> norm_num [raySide, recSide]
  · simp only [reflectionRay, Ray.origin, hout, if_true, glassBias]
  · simp only [refractionRay, Ray.origin, hout, if_true, glassBias]
  · rw [(secondary_origin_offset envSample raySide recSide 1.5).1, hout]
    norm_num [dot, recSide]
  · rw [(secondary_origin_offset envSample raySide recSide 1.5).2, hout]
    norm_num [dot, recSide]

/-! ## Colour range -/

theorem unit_ratio (a s : ℚ) (hs : 0 ≤ s) (h : a * a ≤ s * s) :
    -1 ≤ a * (1 / s) ∧ a * (1 / s) ≤ 1 := by
  rcases eq_or_lt_of_le hs with h0 | hpos
  · rw [← h0]
    norm_num
  · have h1 : a ≤ s := by nlinarith
    have h2 : -s ≤ a := by nlinarith
    rw [mul_one_div]
    constructor
    · rw [le_div_iff₀ hpos]
      linarith
    · rw [div_le_one hpos]
      exact h1

/-- With a `sqrtf` that is non-negative and does not under-estimate, the components of
a normalised vector lie in `[-1, 1]`. -/
theorem normalize_bounds (E : Env) (v : Vec3) (hs0 : ∀ x, 0 ≤ x → 0 ≤ E.sqrtf x)
    (hsq : ∀ x, 0 ≤ x → x ≤ E.sqrtf x * E.sqrtf x) :
    (-1 ≤ (normalize E v).x ∧ (normalize E v).x ≤ 1) ∧
    (-1 ≤ (normalize E v).y ∧ (normalize E v).y ≤ 1) ∧
    (-1 ≤ (normalize E v).z ∧ (normalize E v).z ≤ 1) := by
  have hd : 0 ≤ dot v v := by
    unfold dot
    nlinarith [mul_self_nonneg v.x, mul_self_nonneg v.y, mul_self_nonneg v.z]
  have h1 := hs0 _ hd
  have h2 := hsq _ hd
  have hx : v.x * v.x ≤ dot v v := by
    unfold dot
    nlinarith [mul_self_nonneg v.y, mul_self_nonneg v.z]
  have hy : v.y * v.y ≤ dot v v := by
    unfold dot
    nlinarith [mul_self_nonneg v.x, mul_self_nonneg v.z]
  have hz : v.z * v.z ≤ dot v v := by
    unfold dot
    nlinarith [mul_self_nonneg v.x, mul_self_nonneg v.y]
  exact ⟨unit_ratio _ _ h1 (le_trans hx h2), unit_ratio _ _ h1 (le_trans hy h2),
    unit_ratio _ _ h1 (le_trans hz h2)⟩

/-- The reflectance computed by `fresnel` for index 1.5 lies in `[0, 1]`. -/
theorem fresnel_kr_bounds (E : Env) (I N : Vec3) (hs0 : ∀ x, 0 ≤ x → 0 ≤ E.sqrtf x)
    (hs1 : ∀ x, 0 < x → 0 < E.sqrtf x) :
    0 ≤ fresnel E I N 1.5 ∧ fresnel E I N 1.5 ≤ 1 := by
  obtain ⟨hi, ht, hsin⟩ := fresnelLocals_pos E I N hs0
  unfold fresnel
  simp only
  by_cases hge : (fresnelLocals E I N 1.5).2.2.2 ≥ 1
  · simp only [hge, if_true]
    norm_num
  · simp only [hge, if_false]
    have h1 : (fresnelLocals E I N 1.5).2.2.2 < 1 := not_le.1 hge
    have hpos : 0 < 1 - (fresnelLocals E I N 1.5).2.2.2 * (fresnelLocals E I N 1.5).2.2.2 := by
      nlinarith
    obtain ⟨-, -, h3, h4⟩ := fresnel_branch_range _ _ _ _ hi ht
      (abs_nonneg (fresnelLocals E I N 1.5).1) (hs1 _ (lt_max_of_lt_right hpos))
    exact ⟨h3, h4⟩

theorem inUnit_mix (a b : Vec3) (k : ℚ) (ha : InUnit a) (hb : InUnit b) (hk0 : 0 ≤ k)
    (hk1 : k ≤ 1) : InUnit ((0 : Vec3) + a * k + b * (1 - k)) := by
  obtain ⟨⟨a1, a2⟩, ⟨a3, a4⟩, ⟨a5, a6⟩⟩ := ha
  obtain ⟨⟨b1, b2⟩, ⟨b3, b4⟩, ⟨b5, b6⟩⟩ := hb
  have hk2 : 0 ≤ 1 - k := by linarith
  unfold InUnit
  simp only [v3_add_x, v3_add_y, v3_add_z, v3_muls_x, v3_muls_y, v3_muls_z, v3_zero_x,
    v3_zero_y, v3_zero_z, zero_add]
  refine ⟨⟨?_, ?_⟩, ⟨?_, ?_⟩, ⟨?_, ?_⟩⟩
  · exact add_nonneg (mul_nonneg a1 hk0) (mul_nonneg b1 hk2)
  · nlinarith [mul_le_mul_of_nonneg_right a2 hk0, mul_le_mul_of_nonneg_right b2 hk2]
  · exact add_nonneg (mul_nonneg a3 hk0) (mul_nonneg b3 hk2)
  · nlinarith [mul_le_mul_of_nonneg_right a4 hk0, mul_le_mul_of_nonneg_right b4 hk2]
  · exact add_nonneg (mul_nonneg a5 hk0) (mul_nonneg b5 hk2)
  · nlinarith [mul_le_mul_of_nonneg_right a6 hk0, mul_le_mul_of_nonneg_right b6 hk2]

theorem inUnit_zero : InUnit (Vec3.splat 0) := by
  norm_num [InUnit, Vec3.splat]

theorem skyColor_inUnit (E : Env) (rtx : RTContext) (r : Ray)
    (hn : ∀ v : Vec3, -1 ≤ (normalize E v).y ∧ (normalize E v).y ≤ 1)
    (hg : InUnit rtx.ground_color) (hk : InUnit rtx.sky_color) :
    InUnit (skyColor E rtx r) := by
  obtain ⟨hy1, hy2⟩ := hn r.direction
  obtain ⟨⟨a1, a2⟩, ⟨a3, a4⟩, ⟨a5, a6⟩⟩ := hg
  obtain ⟨⟨b1, b2⟩, ⟨b3, b4⟩, ⟨b5, b6⟩⟩ := hk
  have ht0 : 0 ≤ (0.5 : ℚ) * ((normalize E r.direction).y + 1.0) := by
    norm_num
    linarith
  have ht1 : 0 ≤ (1.0 : ℚ) - 0.5 * ((normalize E r.direction).y + 1.0) := by
    norm_num
    linarith
  unfold InUnit skyColor
  simp only [v3_add_x, v3_add_y, v3_add_z, v3_smul_x, v3_smul_y, v3_smul_z]
  refine ⟨⟨?_, ?_⟩, ⟨?_, ?_⟩, ⟨?_, ?_⟩⟩
  · exact add_nonneg (mul_nonneg ht1 a1) (mul_nonneg ht0 b1)
  · nlinarith [mul_le_mul_of_nonneg_left a2 ht1, mul_le_mul_of_nonneg_left b2 ht0]
  · exact add_nonneg (mul_nonneg ht1 a3) (mul_nonneg ht0 b3)
  · nlinarith [mul_le_mul_of_nonneg_left a4 ht1, mul_le_mul_of_nonneg_left b4 ht0]
  · exact add_nonneg (mul_nonneg ht1 a5) (mul_nonneg ht0 b5)
  · nlinarith [mul_le_mul_of_nonneg_left a6 ht1, mul_le_mul_of_nonneg_left b6 ht0]

/-- The body of `color` yields a colour in `[0, 1]` when the local `hitColor` starts
at zero, the environment colours and the recursive results are in `[0, 1]`,
`glm::normalize` yields components in `[-1, 1]`, and `sqrtf` is non-negative and
positive on positive arguments. -/
theorem shade_inUnit (E : Env) (g_scene : Scene) (rtx : RTContext) (r : Ray)
    (tr : Ray → Vec3) (hu : E.uninit_vec3 = ⟨0, 0, 0⟩)
    (hs0 : ∀ x, 0 ≤ x → 0 ≤ E.sqrtf x) (hs1 : ∀ x, 0 < x → 0 < E.sqrtf x)
    (hn : ∀ v : Vec3, (-1 ≤ (normalize E v).x ∧ (normalize E v).x ≤ 1) ∧
      (-1 ≤ (normalize E v).y ∧ (normalize E v).y ≤ 1) ∧
      (-1 ≤ (normalize E v).z ∧ (normalize E v).z ≤ 1))
    (hg : InUnit rtx.ground_color) (hk : InUnit rtx.sky_color)
    (ht : ∀ q, InUnit (tr q)) : InUnit (shade E g_scene rtx r tr) := by
  have hu0 : E.uninit_vec3 = 0 := hu
  unfold shade
  simp only [Bool.not_true, Bool.false_eq_true, if_false, hu0]
  by_cases hhit : (hit_world g_scene r 0 9999 E.uninit_rec).1 = true
  · rw [if_pos hhit]
    by_cases hsn : rtx.show_normals = true
    · rw [if_pos hsn]
      obtain ⟨⟨x1, x2⟩, ⟨y1, y2⟩, ⟨z1, z2⟩⟩ :=
        hn (hit_world g_scene r 0 9999 E.uninit_rec).2.normal
      unfold InUnit
      simp only [v3_adds_x, v3_adds_y, v3_adds_z, v3_muls_x, v3_muls_y, v3_muls_z]
      norm_num
      refine ⟨⟨?_, ?_⟩, ⟨?_, ?_⟩, ⟨?_, ?_⟩⟩ <;> linarith
    · rw [if_neg hsn]
      obtain ⟨k0, k1⟩ := fresnel_kr_bounds E r.direction
        (normalize E (hit_world g_scene r 0 9999 E.uninit_rec).2.normal) hs0 hs1
      apply inUnit_mix _ _ _ (ht _) _ k0 k1
      split_ifs
      · exact ht _
      · exact inUnit_zero
  · rw [if_neg hhit]
    exact skyColor_inUnit E rtx r (fun v => (hn v).2.1) hg hk

/-- The restart blend leaves a single fresh sample `(c, 1)` with `c` in `[0, 1]` as it
is. -/
theorem blendOld_fresh (c : Vec3) (hc : InUnit c) :
    blendOld (Vec4.ofVec3 c 1) = Vec4.ofVec3 c 1 := by
  obtain ⟨⟨a1, a2⟩, ⟨a3, a4⟩, ⟨a5, a6⟩⟩ := hc
  unfold blendOld Vec4.clamp Vec4.ofVec3
  ext <;> simp <;> norm_num <;> simp [*]

/-- C19 (colour range).  On a build whose default constructor zero-initialises the local
`hitColor`, with a `sqrtf` that is non-negative and positive on positive arguments and
a `glm::normalize` whose result has components in `[-1, 1]`: if every component of
`ground_color` and `sky_color` lies in `[0, 1]`, then for every scene, ray and
`max_bounces` (negative, zero or positive, `show_normals` on or off) every component of
`color` lies in `[0, 1]`, and the clamp of the restart blend leaves the fresh single
sample `(color, 1)` unchanged. -/
theorem color_range (E : Env) (g_scene : Scene) (rtx : RTContext)
    (hu : E.uninit_vec3 = ⟨0, 0, 0⟩)
    (hs0 : ∀ x, 0 ≤ x → 0 ≤ E.sqrtf x) (hs1 : ∀ x, 0 < x → 0 < E.sqrtf x)
    (hn : ∀ v : Vec3, (-1 ≤ (normalize E v).x ∧ (normalize E v).x ≤ 1) ∧
      (-1 ≤ (normalize E v).y ∧ (normalize E v).y ≤ 1) ∧
      (-1 ≤ (normalize E v).z ∧ (normalize E v).z ≤ 1))
    (hg : InUnit rtx.ground_color) (hk : InUnit rtx.sky_color)
    (r : Ray) (max_bounces : Int) :
    InUnit (color E g_scene rtx r max_bounces) ∧
    blendOld (Vec4.ofVec3 (color E g_scene rtx r max_bounces) 1)
      = Vec4.ofVec3 (color E g_scene rtx r max_bounces) 1 := by
  have key : ∀ n : Nat, ∀ mb : Int, (mb + 1).toNat = n → ∀ q : Ray,
      InUnit (color E g_scene rtx q mb) := by
    intro n
    induction n with
    | zero =>
      intro mb hmb q
      have hneg : mb < 0 := by omega
      rw [color]
      simp only [hneg, dite_true]
      exact inUnit_zero
    | succ n ih =>
      intro mb hmb q
      have hpos : ¬ mb < 0 := by omega
      rw [color]
      simp only [hpos, dite_false]
      exact shade_inUnit E g_scene rtx q _ hu hs0 hs1 hn hg hk
        (fun q2 => ih (mb - 1) (by omega) q2)
  exact ⟨key _ max_bounces rfl r, blendOld_fresh _ (key _ max_bounces rfl r)⟩

theorem sqrtSample_sq (x : ℚ) (_h : 0 ≤ x) : x ≤ sqrtSample x * sqrtSample x := by
  unfold sqrtSample
  by_cases h0 : x ≤ 0
  · rw [if_pos h0]
    linarith
  · rw [if_neg h0]
    nlinarith [mul_self_nonneg (x - 1)]

/-- Instance of C19: the sample environment and context, the oblique ray on the sample
scene, `max_bounces = 1`. -/
theorem color_range_witness :
    InUnit (color envSample sceneSample rtxSample rayOblique 1) ∧
    blendOld (Vec4.ofVec3 (color envSample sceneSample rtxSample rayOblique 1) 1)
      = Vec4.ofVec3 (color envSample sceneSample rtxSample rayOblique 1) 1 :=
  color_range envSample sceneSample rtxSample rfl sqrtSample_nonneg sqrtSample_pos
    (fun v => normalize_bounds envSample v sqrtSample_nonneg sqrtSample_sq)
    (by norm_num [InUnit, rtxSample]) (by norm_num [InUnit, rtxSample]) rayOblique 1

/-! ## Blending after `resetAccumulation` -/

theorem wrap32_id (z : Int) (h0 : 0 ≤ z) (h1 : z ≤ INT_MAX) : wrap32 z = z := by
  unfold wrap32
  unfold INT_MAX at h1
  omega

/-- A loop iteration whose index fits in `int` behaves as with unbounded integers. -/
theorem updatePixel32_eq (E : Env) (g_scene : Scene) (rtx : RTContext) (y x : Nat)
    (hb : ((y * rtx.width + x : Nat) : Int) ≤ INT_MAX) :
    updatePixel32 E g_scene (y : Int) rtx (x : Int)
      = updatePixel E g_scene (y : Int) rtx (x : Int) := by
  have hb2 : (y : Int) * (rtx.width : Int) + (x : Int) ≤ INT_MAX := by
    push_cast at hb
    exact hb
  have hy0 : (0 : Int) ≤ (y : Int) * (rtx.width : Int) := by positivity
  have hx0 : (0 : Int) ≤ (x : Int) := by positivity
  have h1 : wrap32 ((y : Int) * (rtx.width : Int)) = (y : Int) * (rtx.width : Int) :=
    wrap32_id _ hy0 (by linarith)
  have h2 : wrap32 ((y : Int) * (rtx.width : Int) + (x : Int))
      = (y : Int) * (rtx.width : Int) + (x : Int) :=
    wrap32_id _ (by linarith) hb2
  unfold updatePixel32 updatePixel
  simp only [h1, h2]

/-- A scanline that lies inside the framebuffer and whose indices fit in `int` is
processed as with unbounded integers. -/
theorem updateLine32_eq (E : Env) (g_scene : Scene) (rtx : RTContext) (y : Nat)
    (hrow : (y + 1) * rtx.width ≤ rtx.image.length)
    (hb : (((y + 1) * rtx.width : Nat) : Int) ≤ INT_MAX + 1) :
    updateLine32 E g_scene rtx (y : Int) = updateLine E g_scene rtx (y : Int) := by
  have key : ∀ k : Nat, k ≤ rtx.width →
      (List.range k).foldl
          (fun (acc : Option RTContext) (x : Nat) =>
            acc.bind fun s => updatePixel32 E g_scene (y : Int) s (x : Int)) (some rtx)
        = (List.range k).foldl
          (fun (acc : Option RTContext) (x : Nat) =>
            acc.bind fun s => updatePixel E g_scene (y : Int) s (x : Int)) (some rtx) := by
    intro k
    induction k with
    | zero =>
      intro _
      simp only [List.range_zero, List.foldl_nil]
    | succ k ih =>
      intro hk
      obtain ⟨img, hfold, -, -⟩ := updateLine_loop E g_scene rtx y hrow k (by omega)
      rw [List.range_succ, List.foldl_append, List.foldl_append, ih (by omega), hfold]
      simp only [List.foldl_cons, List.foldl_nil, Option.some_bind]
      apply updatePixel32_eq E g_scene { rtx with image := img } y k
      have h1 : (y + 1) * rtx.width = y * rtx.width + rtx.width := by ring
      have h2 : ((y * rtx.width + k : Nat) : Int) + 1 ≤ (((y + 1) * rtx.width : Nat) : Int) := by
        rw [h1]
        push_cast
        omega
      show ((y * rtx.width + k : Nat) : Int) ≤ INT_MAX
      linarith
  unfold updateLine32 updateLine
  exact key rtx.width (le_refl _)

theorem foldl_bind_none (E : Env) (g_scene : Scene) (y : Int) (l : List Nat) :
    l.foldl (fun (acc : Option RTContext) (x : Nat) =>
      acc.bind fun s => updatePixel32 E g_scene y s (x : Int)) none = none := by
  induction l with
  | nil => rfl
  | cons a l ih =>
    rw [List.foldl_cons]
    exact ih

theorem updatePixel32_empty (E : Env) (g_scene : Scene) (y : Int) (rtx : RTContext) (x : Int)
    (h : rtx.image = []) : updatePixel32 E g_scene y rtx x = none := by
  have hget : ∀ i : Int, getAt rtx.image i = none := by
    intro i
    rw [h]
    unfold getAt
    split_ifs <;> rfl
  unfold updatePixel32
  by_cases hf : rtx.current_frame ≤ 0
  · simp only [hf, if_true, hget, Option.none_bind]
  · simp only [hf, if_false, Option.some_bind, hget, Option.none_bind]

/-- On an empty framebuffer the first access of `updateLine` is out of range. -/
theorem updateLine32_empty (E : Env) (g_scene : Scene) (rtx : RTContext) (y : Int)
    (h : rtx.image = []) (hw : 0 < rtx.width) : updateLine32 E g_scene rtx y = none := by
  obtain ⟨n, hn⟩ := Nat.exists_eq_succ_of_ne_zero (Nat.pos_iff_ne_zero.1 hw)
  unfold updateLine32
  rw [hn, List.range_succ_eq_map, List.foldl_cons]
  simp only [Option.some_bind]
  rw [updatePixel32_empty E g_scene y rtx _ h]
  exact foldl_bind_none E g_scene y _

/-- C20 (framebuffer indexing safety), counterexample.  The context with
`width = height = 65536`, `current_line = 0` and `freeze` off satisfies the hypotheses of
the claim, but the `int` product `width * height` wraps to `0`, the framebuffer has
length `0` after the resize, and the first access of `updateLine`, at index `0`, is out
of range: the call does not complete. -/
theorem index_overflow_65536 :
    0 < rtxHuge.width ∧ 0 < rtxHuge.height ∧ 0 ≤ rtxHuge.current_line ∧
    rtxHuge.freeze = false ∧
    wrap32 ((rtxHuge.width : Int) * (rtxHuge.height : Int)) = 0 ∧
    (resize rtxHuge.image
      (wrap32 ((rtxHuge.width : Int) * (rtxHuge.height : Int))).toNat).length = 0 ∧
    wrap32 (wrap32 (Int.tmod rtxHuge.current_line (rtxHuge.height : Int)
      * (rtxHuge.width : Int)) + 0) = 0 ∧
    updateImage32 envSample sceneSample rtxHuge = none := by
  have hn : wrap32 ((rtxHuge.width : Int) * (rtxHuge.height : Int)) = 0 := by
    norm_num [wrap32, rtxHuge]
  have hw : 0 < rtxHuge.width := by
    show 0 < 65536
    norm_num
  have hh : 0 < rtxHuge.height := by
    show 0 < 65536
    norm_num
  refine ⟨hw, hh, le_refl _, rfl, hn, ?_, ?_, ?_⟩
  · rw [hn]
    rfl
  · norm_num [wrap32, rtxHuge, rtxSample, Int.tmod]
  · unfold updateImage32
    rw [if_neg (by decide), hn]
    simp only [lt_irrefl, if_false, Int.toNat_zero]
    rw [if_neg (Nat.pos_iff_ne_zero.1 hh)]
    have hempty := updateLine32_empty envSample sceneSample
      { rtxHuge with image := resize rtxHuge.image 0 }
      (Int.tmod rtxHuge.current_line (rtxHuge.height : Int)) rfl hw
    rw [hempty]
    rfl

/-- C20 (framebuffer indexing safety), amended.  For a context with `width > 0`,
`height > 0`, `current_line >= 0`, `freeze` off and `width * height <= INT_MAX`: the
`int` product `width * height` does not wrap and is the framebuffer length after the
resize, every index `y*width + x` computed in `int` (`y = current_line % height`,
`0 <= x < width`) does not wrap and satisfies `0 <= index < width*height`, and
`updateImage` completes, that is, without out-of-range access and without division by
zero, whatever the framebuffer length was before the call. -/
theorem framebuffer_index_safe_int (E : Env) (g_scene : Scene) (rtx : RTContext)
    (hw : 0 < rtx.width) (hh : 0 < rtx.height) (hcl : 0 ≤ rtx.current_line)
    (hfz : rtx.freeze = false)
    (hprod : ((rtx.width * rtx.height : Nat) : Int) ≤ INT_MAX) :
    wrap32 ((rtx.width : Int) * (rtx.height : Int)) = ((rtx.width * rtx.height : Nat) : Int) ∧
    (resize rtx.image (wrap32 ((rtx.width : Int) * (rtx.height : Int))).toNat).length
      = rtx.width * rtx.height ∧
    (∀ x : Nat, x < rtx.width →
      wrap32 (wrap32 (Int.tmod rtx.current_line (rtx.height : Int) * (rtx.width : Int))
          + (x : Int))
        = Int.tmod rtx.current_line (rtx.height : Int) * (rtx.width : Int) + (x : Int) ∧
      0 ≤ wrap32 (wrap32 (Int.tmod rtx.current_line (rtx.height : Int) * (rtx.width : Int))
          + (x : Int)) ∧
      wrap32 (wrap32 (Int.tmod rtx.current_line (rtx.height : Int) * (rtx.width : Int))
          + (x : Int))
        < ((rtx.width * rtx.height : Nat) : Int)) ∧
    ∃ rtx2 : RTContext, updateImage32 E g_scene rtx = some rtx2 ∧
      rtx2.image.length = rtx.width * rtx.height := by
  have hn : wrap32 ((rtx.width : Int) * (rtx.height : Int))
      = ((rtx.width * rtx.height : Nat) : Int) := by
    rw [wrap32_id _ (by positivity) (by push_cast at hprod; exact hprod)]
    push_cast
    rfl
  have hy : Int.tmod rtx.current_line (rtx.height : Int)
      = ((rtx.current_line.toNat % rtx.height : Nat) : Int) := by
    rw [Int.tmod_eq_emod hcl (by omega)]
    have hnat : ((rtx.current_line.toNat : Nat) : Int) = rtx.current_line :=
      Int.toNat_of_nonneg hcl
    push_cast
    rw [hnat]
  have hlt : rtx.current_line.toNat % rtx.height < rtx.height := Nat.mod_lt _ hh
  have h1 : (rtx.current_line.toNat % rtx.height + 1) * rtx.width
      ≤ rtx.height * rtx.width := Nat.mul_le_mul_right _ hlt
  have h2 : (rtx.current_line.toNat % rtx.height + 1) * rtx.width
      = rtx.current_line.toNat % rtx.height * rtx.width + rtx.width := by ring
  have h3 : rtx.height * rtx.width = rtx.width * rtx.height := Nat.mul_comm _ _
  have hrowb : (((rtx.current_line.toNat % rtx.height + 1) * rtx.width : Nat) : Int)
      ≤ INT_MAX + 1 := by
    have : (((rtx.current_line.toNat % rtx.height + 1) * rtx.width : Nat) : Int)
        ≤ ((rtx.width * rtx.height : Nat) : Int) := by
      exact_mod_cast (by omega : (rtx.current_line.toNat % rtx.height + 1) * rtx.width
        ≤ rtx.width * rtx.height)
    linarith
  refine ⟨hn, ?_, fun x hx => ?_, ?_⟩
  · rw [hn, Int.toNat_ofNat, resize_length]
  · have hnat : rtx.current_line.toNat % rtx.height * rtx.width + x
        < rtx.width * rtx.height := by omega
    have hidx : (rtx.current_line.toNat % rtx.height : Nat) * (rtx.width : Int) + (x : Int)
        = ((rtx.current_line.toNat % rtx.height * rtx.width + x : Nat) : Int) := by
      push_cast
      rfl
    have hlt2 : ((rtx.current_line.toNat % rtx.height * rtx.width + x : Nat) : Int)
        < ((rtx.width * rtx.height : Nat) : Int) := by exact_mod_cast hnat
    have hya : (0 : Int) ≤ (rtx.current_line.toNat % rtx.height : Nat) * (rtx.width : Int) :=
      Int.mul_nonneg (Int.ofNat_nonneg _) (Int.ofNat_nonneg _)
    have hxa : (0 : Int) ≤ (x : Int) := Int.ofNat_nonneg x
    have e1 : wrap32 ((rtx.current_line.toNat % rtx.height : Nat) * (rtx.width : Int))
        = (rtx.current_line.toNat % rtx.height : Nat) * (rtx.width : Int) :=
      wrap32_id _ hya (by linarith)
    have e2 : wrap32 ((rtx.current_line.toNat % rtx.height : Nat) * (rtx.width : Int) + (x : Int))
        = (rtx.current_line.toNat % rtx.height : Nat) * (rtx.width : Int) + (x : Int) :=
      wrap32_id _ (by linarith) (by linarith)
    rw [hy, e1, e2]
    exact ⟨rfl, by linarith, by linarith⟩
  · have hrow : (rtx.current_line.toNat % rtx.height + 1) * rtx.width
        ≤ (resize rtx.image (rtx.width * rtx.height)).length := by
      rw [resize_length]
      omega
    obtain ⟨img, hrun, hlen, -⟩ := updateLine_spec E g_scene
      { rtx with image := resize rtx.image (rtx.width * rtx.height) }
      (rtx.current_line.toNat % rtx.height) hrow
    have hrun32 := updateLine32_eq E g_scene
      { rtx with image := resize rtx.image (rtx.width * rtx.height) }
      (rtx.current_line.toNat % rtx.height) hrow hrowb
    have hh0 : ¬ rtx.height = 0 := by omega
    have hnn : ¬ ((rtx.width * rtx.height : Nat) : Int) < 0 := by
      have : (0 : Int) ≤ ((rtx.width * rtx.height : Nat) : Int) := by positivity
      omega
    refine ⟨advanceCounters32 { rtx with image := img }, ?_, ?_⟩
    · unfold updateImage32
      rw [if_neg (by rw [hfz]; exact Bool.false_ne_true), hn]
      simp only [hnn, if_false, Int.toNat_ofNat, hh0]
      rw [hy, hrun32, hrun, Option.map_some']
    · have : (advanceCounters32 { rtx with image := img }).image = img := by
        unfold advanceCounters32
        dsimp only
        split_ifs <;> rfl
      rw [this, hlen, resize_length]

/-- Instance of the amended C20: the 2 by 4 sample context with cursor `6` and a
framebuffer of three entries before the call. -/
theorem framebuffer_index_safe_int_witness :
    wrap32 (((2 : Nat) : Int) * ((4 : Nat) : Int)) = ((2 * 4 : Nat) : Int) ∧
    (resize [0, 0, 0] (wrap32 (((2 : Nat) : Int) * ((4 : Nat) : Int))).toNat).length = 2 * 4 ∧
    (∀ x : Nat, x < 2 →
      wrap32 (wrap32 (Int.tmod 6 ((4 : Nat) : Int) * ((2 : Nat) : Int)) + (x : Int))
        = Int.tmod 6 ((4 : Nat) : Int) * ((2 : Nat) : Int) + (x : Int) ∧
      0 ≤ wrap32 (wrap32 (Int.tmod 6 ((4 : Nat) : Int) * ((2 : Nat) : Int)) + (x : Int)) ∧
      wrap32 (wrap32 (Int.tmod 6 ((4 : Nat) : Int) * ((2 : Nat) : Int)) + (x : Int))
        < ((2 * 4 : Nat) : Int)) ∧
    ∃ rtx2 : RTContext,
      updateImage32 envSample sceneSample
          { rtxSample with current_line := 6, image := [0, 0, 0] } = some rtx2 ∧
      rtx2.image.length = 2 * 4 :=
  framebuffer_index_safe_int envSample sceneSample
    { rtxSample with current_line := 6, image := [0, 0, 0] } (by decide) (by decide)
    (by decide) rfl (by norm_num [INT_MAX, rtxSample])

end rt
